import Mathlib

/-!
Verification development for the Tygra typed-graph model
(src/tygra: mobjects.py, mrelations.py, relationproperties.py, attributes.py,
util.py, typedgraphs.py).

Part 1 embeds the entity/relation graph model: `MObject.isa`,
`treeFlatten` (util.py), `Isa.validateReferents` and the runtime construction
path `Isa.__init__` / `MRelation._post__init__` (mrelations.py),
`MObject.notifyRelationDeletion` (mobjects.py), and the query
`MObject.isRelatedTo` together with the Reflexive/Symmetric/Transitive
relation properties (relationproperties.py).

Part 2 embeds the attribute store of attributes.py: `Attributes.Item`,
`Attributes._get`, `Attributes.get`, `Attributes.add`, `Attributes.config`.

Machine-level notes on the embedding:
* Python objects are represented by numeric ids in a state table; `is` and the
  default `==` on model objects are both identity, hence id equality.
* The incident-relations list of an entity (`MObject.relations`) is built by
  `WeakList` from tygra/weaklist.py, a file the repository imports but which is
  not under src/.  Modelled from the spec: the spec calls it "a non-owning
  (weak) list of incident relations", so while all referenced objects are
  live it behaves as an ordered list with append/remove/iteration, and we
  embed it as `List Nat` of relation ids.
* Functions that can recurse unboundedly in Python (the isa walk, the
  isRelatedTo closure, the attribute lookup) are embedded with an explicit
  fuel argument; running out of fuel is a distinct result from a Python
  exception, so non-termination and raised errors are distinguishable.
  Loops over lists are factored into helper functions that receive the
  recursive call at the next fuel level as an explicit function argument, so
  that every definition is structurally recursive and computable by `decide`.
-/

namespace Tygra

/-- Result of an embedded Python call: `out` means the fuel was exhausted
(modelling non-termination / unbounded recursion), `fail` models a raised
Python exception (AssertionError / AttributeError / missing object), and
`ret b` is a normal boolean return. -/
inductive QRes where
  | out
  | fail
  | ret (b : Bool)
deriving DecidableEq, Repr

/-- Python class of a model object: `MNode`, plain `MRelation`, or the
`Isa` subclass of `MRelation` (mnodes.py / mrelations.py). -/
inductive ECls where
  | node
  | rel
  | isa
deriving DecidableEq, Repr

/-- Relation properties (relationproperties.py): stateless singleton
behaviours attached to a relation instance through its `properties` list. -/
inductive RProp where
  | reflexive
  | symmetric
  | transitive
deriving DecidableEq, Repr

/-- One model entity (an `MObject`: node or relation).  For relations,
`src`/`dst` are `fromNode`/`toNode`, `isIsa` is the `isIsa` property
(true exactly for `Isa` instances in mrelations.py; the executable model at
the bottom of relationproperties.py instead tags plain relations with an
`_isa` attribute, which this same flag represents), `props` is the
`properties` list installed by `resetProperties` in relationproperties.py.
`rels` is `MObject.relations` (the incident-relations list) and `deleted`
is `MObject._deleted`.  For nodes the relation-only fields are unused. -/
structure Ent where
  eid : Nat
  cls : ECls
  isIsa : Bool
  src : Nat
  dst : Nat
  props : List RProp
  rels : List Nat
  deleted : Bool
deriving DecidableEq, Repr

/-- Whether the Python object is an `MRelation` (`isinstance` against
`MRelation` is true for both `MRelation` and its subclass `Isa`). -/
def Ent.isRel (e : Ent) : Bool :=
  match e.cls with
  | .node => false
  | .rel => true
  | .isa => true

/-- The model state: the live entities (the object heap restricted to
`MObject`s), the two distinguished roots `TGModel.topNode` and
`TGModel.topRelation`, and `TGModel._relations` (the model-level relation
registry appended to by `TGModel.register`). -/
structure GState where
  ents : List Ent
  topNode : Nat
  topRelation : Nat
  registry : List Nat
deriving DecidableEq, Repr

/-- Dereference an object id in the state (heap lookup). -/
def findEnt (s : GState) (i : Nat) : Option Ent :=
  s.ents.find? (fun e => e.eid = i)

/-- All entity ids of the state. -/
def entIds (s : GState) : List Nat :=
  s.ents.map (fun e => e.eid)

/-- Loop of `MObject.isa` (single-target branch) over `self.relations`:
follow each relation with `r.isIsa and r.fromNode is self`, asking `next`
(the recursive `r.toNode.isa(nodeType)` call at the next fuel level) about
its target; `True` short-circuits, `False` moves to the next relation, fuel
exhaustion or an exception propagates. -/
def isaLoop (next : Nat → QRes) (s : GState) (rids : List Nat) (selfId : Nat) : QRes :=
  match rids with
  | [] => .ret false
  | rid :: rest =>
    match findEnt s rid with
    | none => .fail
    | some r =>
      if r.isIsa ∧ r.src = selfId then
        match next r.dst with
        | .ret true => .ret true
        | .ret false => isaLoop next s rest selfId
        | other => other
      else isaLoop next s rest selfId

/-- MObject.isa (mobjects.py:173-208), single-target branch: boolean
reachability from `selfId` to `typeId` along outgoing isa edges.
The body mirrors, in order: `assert type(nodeType) == type(self)`;
`if nodeType==self: return True`;
`if self in [self.tgmodel.topNode, self.tgmodel.topRelation]: return False`;
then the loop over `self.relations` recursing on `r.toNode`.
(The executable model in relationproperties.py defines the same function
without the topNode/topRelation early exit; states for that model simply use
root ids that are not entity ids, making the exit vacuous.) -/
def isaB (s : GState) : Nat → Nat → Nat → QRes
  | 0, _, _ => .out
  | fuel + 1, selfId, typeId =>
    match findEnt s selfId, findEnt s typeId with
    | some se, some te =>
      if se.cls ≠ te.cls then .fail
      else if typeId = selfId then .ret true
      else if selfId = s.topNode ∨ selfId = s.topRelation then .ret false
      else isaLoop (fun dst => isaB s fuel dst typeId) s se.rels selfId
    | _, _ => .fail

/-- A Python "tree list" as produced by `MObject.isa()` with no argument: a
list whose items are either model objects or nested lists, encoded with
explicit list cells (`nilL`/`consL`) so that all recursions over it are
structural.  A well-formed tree list is `nilL`/`consL`-shaped; `obj` appears
only as a list item. -/
inductive TL where
  | obj (i : Nat)
  | nilL
  | consL (hd tl : TL)
deriving DecidableEq, Repr

/-- Python `len` of a (list-shaped) tree list. -/
def tlLen : TL → Nat
  | .obj _ => 0
  | .nilL => 0
  | .consL _ t => tlLen t + 1

/-- Python `+` on (list-shaped) tree lists. -/
def tlAppend : TL → TL → TL
  | .obj _, u => u
  | .nilL, u => u
  | .consL h t, u => .consL h (tlAppend t u)

/-- All object ids occurring in a tree list (in preorder). -/
def tlObjs : TL → List Nat
  | .obj i => [i]
  | .nilL => []
  | .consL h t => tlObjs h ++ tlObjs t

/-- Whether a `TL` value encodes a genuine Python list: every cons cell has a
list tail, and every nested list item is itself well-shaped.  (All tree
lists built by the embedded `MObject.isa()` satisfy this.) -/
def tlOk : TL → Bool
  | .obj _ => false
  | .nilL => true
  | .consL (.obj _) t => tlOk t
  | .consL h t => tlOk h && tlOk t

/-- util.treeFlatten (util.py:385-397): flatten a tree list into a flat list,
eliminating duplicates.  `om` is the `_omit` parameter, `ret` the
accumulator; a nested list item is flattened with `_omit` bound to the
current `ret` (exactly `ret += treeFlatten(item, _omit=ret)` in the source),
and an object item is appended unless it is in `_omit` or already in `ret`. -/
def tfAux (om : List Nat) (ts : TL) (ret : List Nat) : List Nat :=
  match ts with
  | .obj _ => ret
  | .nilL => ret
  | .consL (.obj i) rest =>
    tfAux om rest (if i ∈ om ∨ i ∈ ret then ret else ret ++ [i])
  | .consL item rest => tfAux om rest (ret ++ tfAux ret item [])

/-- util.treeFlatten with the source's calling convention. -/
def treeFlatten (tree : TL) (om : List Nat) : List Nat :=
  tfAux om tree []

/-- Loop of the no-argument `MObject.isa` over `self.relations`,
concatenating the children tree lists `r.toNode.isa()` (obtained from
`next`, the recursive call at the next fuel level) of the outgoing isa
edges. -/
def isaTreeLoop (next : Nat → Option TL) (s : GState) (rids : List Nat)
    (selfId : Nat) : Option TL :=
  match rids with
  | [] => some .nilL
  | rid :: rest =>
    match findEnt s rid with
    | none => none
    | some r =>
      if r.isIsa ∧ r.src = selfId then
        match next r.dst, isaTreeLoop next s rest selfId with
        | some kids, some more => some (tlAppend kids more)
        | _, _ => none
      else isaTreeLoop next s rest selfId

/-- MObject.isa (mobjects.py:187-194), no-argument branch: the tree list of
all isa-ancestors.  Mirrors: the topNode/topRelation early `return [self]`;
`ret = [self]` extended with `r.toNode.isa()` for each outgoing isa edge;
and the final `return [self, ret] if len(ret)>0 else [self]`. -/
def isaTree (s : GState) : Nat → Nat → Option TL
  | 0, _ => none
  | fuel + 1, selfId =>
    if selfId = s.topNode ∨ selfId = s.topRelation then
      some (.consL (.obj selfId) .nilL)
    else
      match findEnt s selfId with
      | none => none
      | some se =>
        match isaTreeLoop (fun dst => isaTree s fuel dst) s se.rels selfId with
        | none => none
        | some kids =>
          let ret : TL := .consL (.obj selfId) kids
          some (if tlLen ret > 0 then .consL (.obj selfId) (.consL ret .nilL)
                else .consL (.obj selfId) .nilL)

/-- Replace the entity with id `i` in the state by `f` applied to it. -/
def updateEnt (s : GState) (i : Nat) (f : Ent → Ent) : GState :=
  { s with ents := s.ents.map (fun e => if e.eid = i then f e else e) }

/-- Isa.validateReferents (mrelations.py:310-327) evaluated for a freshly
constructed isa relation from `frm` to `toN` (such a relation has an empty
`relations` list of its own, so the `isparent()` loop of the inherited
`MRelation.validateReferents` (mrelations.py:84-101) is empty and only its
both-nodes-or-both-relations check remains, which on violation logs and
returns 1 immediately).  Returns the error count, or `none` if one of the
two `treeFlatten(x.isa())` walks does not complete within `fuel`. -/
def isaValidateReferentsFresh (s : GState) (fuel : Nat) (frm toN : Nat) : Option Nat :=
  match findEnt s frm, findEnt s toN with
  | some ef, some et =>
    -- MRelation.validateReferents: both MNodes or both MRelations, else return 1
    if ¬((ef.isRel = false ∧ et.isRel = false) ∨ (ef.isRel = true ∧ et.isRel = true)) then
      some 1
    else
      match isaTree s fuel frm, isaTree s fuel toN with
      | some ftree, some ttree =>
        -- frmAncestors = treeFlatten(self.fromNode.isa())[1:]
        let frmAncestors := (treeFlatten ftree []).drop 1
        -- redundancy: toNode already a supertype of fromNode
        let e1 := if toN ∈ frmAncestors ∧ ¬(toN = frm) then 1 else 0
        -- toAncestors = treeFlatten(self.toNode.isa())[1:]
        let toAncestors := (treeFlatten ttree []).drop 1
        -- circularity: this relation would create a circular type hierarchy
        let e2 := if frm ∈ toAncestors then 1 else 0
        some (e1 + e2)
      | _, _ => none
  | _, _ => none

/-- Result of a runtime relation construction: the state after the call and
the exception raised, if any. -/
structure CResult where
  state : GState
  err : Option String
deriving DecidableEq, Repr

/-- Runtime construction `Isa(tgmodel, frm, to, idServer)` (mrelations.py:289,
43-76).  The embedded sequence is exactly the source's:

1. `MRelation.__init__` stores `fromNode`/`toNode` and calls
   `MObject.__init__` (mobjects.py:28-46), which creates the object with an
   empty `relations` list (`isinstance(self, Isa)` skips the typ/Isa block)
   and calls `self.tgmodel.register(self)`, appending the new object to
   `TGModel._relations` (typedgraphs.py:630-638).  Attribute-store setup and
   observer notification do not touch any relation list and are elided.
2. `_id is None`, so `self._post__init__()` runs: `Isa._post__init__` first
   calls `MRelation._post__init__` (mrelations.py:64-76), which evaluates
   `self.validate()`.  `MRelation.validate` (mrelations.py:78-82) begins with
   `errCount += super().validate()` — but neither `MObject` (mobjects.py) nor
   any of its bases `PO` (util.py), `AttrOwner`, `AttrObserver`
   (attributes.py) defines a `validate` method, so this call raises
   `AttributeError` before `validateReferents`, `fromNode.addRelation` or
   `toNode.addRelation` is ever reached.  The exception propagates out of the
   constructor; the half-built relation is left registered in
   `TGModel._relations` but attached to neither endpoint. -/
def constructIsa (s : GState) (newId frm toN : Nat) : CResult :=
  let fresh : Ent :=
    { eid := newId, cls := .isa, isIsa := true, src := frm, dst := toN,
      props := [], rels := [], deleted := false }
  let s1 : GState :=
    { s with ents := s.ents ++ [fresh], registry := s.registry ++ [newId] }
  { state := s1,
    err := some "AttributeError: super object has no attribute validate" }

/-- The outgoing isa-edge ids of entity `i`: the embedded
`[r for r in self.relations if r.isIsa and r.fromNode is self]`
(mobjects.py:364). -/
def outgoingIsa (s : GState) (i : Nat) : List Nat :=
  match findEnt s i with
  | none => []
  | some e =>
    e.rels.filter (fun rid =>
      match findEnt s rid with
      | some r => r.isIsa ∧ r.src = i
      | none => false)

/-- MObject.notifyRelationDeletion (mobjects.py:349-369) for entity `selfId`
being told that `relId` is deleting.  `newId` is the id the replacement Isa
edge would receive.  Mirrors the source in order:

* `self.relations.remove(relation)` if present (else only a warning);
* `self.notifyObservers(...)` and the two `removeObserver` calls touch only
  observer lists, which carry no relation-list state and are elided;
* if the deleted relation was an outgoing isa edge and no outgoing isa edge
  remains and the entity is not itself mid-deletion, construct
  `Isa(self.tgmodel, self, topRelation-or-topNode, ...)`; the source does not
  guard this call, so the `AttributeError` raised inside the constructor
  (see `constructIsa`) propagates to the caller. -/
def notifyRelationDeletion (s : GState) (selfId relId newId : Nat) :
    GState × Option String :=
  match findEnt s selfId, findEnt s relId with
  | some se, some rel =>
    let s1 := updateEnt s selfId (fun e => { e with rels := e.rels.erase relId })
    if rel.isIsa ∧ rel.src = selfId then
      if (outgoingIsa s1 selfId).length = 0 ∧ ¬se.deleted then
        let c := constructIsa s1 newId selfId
          (if se.isRel then s.topRelation else s.topNode)
        (c.state, c.err)
      else (s1, none)
    else (s1, none)
  | _, _ => (s, some "AttributeError")

/-- The `isRelated` methods of the three RelationProperty singletons
(relationproperties.py:53-99), boolean branch, with `fromNode = selfId`,
`relation = r`, and `next sid om` standing for the recursive call
`sid.isRelatedTo(relType, toNode, _omit=om)` at the next recursion level:

* Reflexive: `return relation.fromNode is fromNode`;
* Symmetric: the two orientation tests;
* Transitive: with `_omit` already extended by `toNode` at the call site in
  `isRelatedTo` (`_omit=_omit.union([toNode])`),
  `if fromNode in _omit: return False` and otherwise
  `relation.toNode.isRelatedTo(relType, toNode, _omit=_omit.union([fromNode]))`.

The leading `assert relation.isa(relType)` re-checks the condition under
which `isRelatedTo` reached this call with the same pure arguments, so it is
elided. -/
def propIsRelated (next : Nat → List Nat → QRes) (p : RProp) (r : Ent)
    (selfId toNodeId : Nat) (om : List Nat) : QRes :=
  let om1 := om.insert toNodeId
  match p with
  | .reflexive => .ret (r.src = selfId)
  | .symmetric =>
    .ret ((selfId = r.src ∧ toNodeId = r.dst) ∨ (selfId = r.dst ∧ toNodeId = r.src))
  | .transitive =>
    if selfId ∈ om1 then .ret false
    else next r.dst (om1.insert selfId)

/-- Loop of `isRelatedTo` over `r.properties` (a behaviour returning a truthy
value short-circuits with `True`). -/
def propLoop (next : Nat → List Nat → QRes) (ps : List RProp) (r : Ent)
    (selfId toNodeId : Nat) (om : List Nat) : QRes :=
  match ps with
  | [] => .ret false
  | p :: rest =>
    match propIsRelated next p r selfId toNodeId om with
    | .ret true => .ret true
    | .ret false => propLoop next rest r selfId toNodeId om
    | other => other

/-- Body of the `isRelatedTo` loop for a single relation `rid`:
`if r.isa(relType)` (asked with fuel `isaF`), then the direct-edge test
`r.fromNode is self and r.toNode is toNode`, then the loop over
`r.properties`. -/
def relOne (s : GState) (isaF : Nat) (next : Nat → List Nat → QRes) (rid : Nat)
    (selfId relTypeId toNodeId : Nat) (om : List Nat) : QRes :=
  match findEnt s rid with
  | none => .fail
  | some r =>
    match isaB s isaF rid relTypeId with
    | .ret true =>
      if r.src = selfId ∧ r.dst = toNodeId then .ret true
      else propLoop next r.props r selfId toNodeId om
    | .ret false => .ret false
    | other => other

/-- Loop of `isRelatedTo` over `self.relations`: a relation that yields
`True` short-circuits, `False` moves on to the next relation, and an
exception or exhausted fuel propagates. -/
def relLoop (s : GState) (isaF : Nat) (next : Nat → List Nat → QRes)
    (rids : List Nat) (selfId relTypeId toNodeId : Nat) (om : List Nat) : QRes :=
  match rids with
  | [] => .ret false
  | rid :: rest =>
    match relOne s isaF next rid selfId relTypeId toNodeId om with
    | .ret true => .ret true
    | .ret false => relLoop s isaF next rest selfId relTypeId toNodeId om
    | other => other

/-- MObject.isRelatedTo (mobjects.py:242-276), boolean branch (`toNode`
given): is `selfId` related to `toNodeId` through a chain of relations that
are isa-subtypes of `relTypeId`?  The executable model at the bottom of
relationproperties.py (lines 192-227) defines the identical algorithm; it is
the variant the repository actually exercises, because only its `MRelation`
(relationproperties.py:244-259) installs the `properties` list the loop
reads (the production `MRelation` of mrelations.py never assigns a
`properties` attribute).  `isaF` is the fuel used for the `isa` subqueries;
`fuel` bounds the recursion depth of `isRelatedTo` itself and decreases by
one on every nested transitive hop.  The entry mirrors
`assert isinstance(relType, MRelation)` (fail when the looked-up type is not
a relation) and then the loop over `self.relations`. -/
def isRelatedToB (s : GState) (isaF : Nat) :
    Nat → Nat → Nat → Nat → List Nat → QRes
  | 0, _, _, _, _ => .out
  | fuel + 1, selfId, relTypeId, toNodeId, om =>
    match findEnt s relTypeId with
    | none => .fail
    | some rt =>
      if rt.isRel = false then .fail
      else
        match findEnt s selfId with
        | none => .fail
        | some se =>
          relLoop s isaF
            (fun sid om' => isRelatedToB s isaF fuel sid relTypeId toNodeId om')
            se.rels selfId relTypeId toNodeId om

/-- Well-formedness of a model state: entity ids are unique (each Python
object is one heap entry), and every member of an incident-relations list is
a registered relation whose two endpoints are registered entities (the lists
are maintained by `MObject.addRelation`, which stores live relation
objects). -/
def WFGraph (s : GState) : Prop :=
  (entIds s).Nodup ∧
  ∀ e ∈ s.ents, ∀ rid ∈ e.rels,
    ∃ r, r ∈ s.ents ∧ r.eid = rid ∧ r.isRel = true ∧
      r.src ∈ entIds s ∧ r.dst ∈ entIds s

/-- The `isa` subqueries against `relTypeId` return normally (no exhausted
fuel, no exception) from every relation entity of the state: this is how
"the isa graph is acyclic and well-typed" enters the termination statement,
since `MObject.isa` itself has no visited-set and would not terminate on an
isa cycle.  (Only relation entities are quantified because `isRelatedTo`
only ever asks `r.isa(relType)` for members `r` of a relations list.) -/
def isaTotalFor (s : GState) (isaF relTypeId : Nat) : Prop :=
  ∀ r ∈ s.ents, r.isRel = true → ∃ b, isaB s isaF r.eid relTypeId = QRes.ret b

/-- Number of entities not yet in the `_omit` set: the quantity that shrinks
on every transitive hop of `isRelatedTo`. -/
def freeCount (s : GState) (om : List Nat) : Nat :=
  ((entIds s).filter (fun i => i ∉ om)).length

/-- Canonical fuel for a state: one more than the number of entities, enough
for any `isRelatedTo` recursion because every nested transitive hop adds a
fresh entity to `_omit`. -/
def qFuel (s : GState) : Nat :=
  (entIds s).length + 1

/-- The (from, to) pairs of the isa edges attached to entity `e` (present in
its incident-relations list with `e` as source). -/
def isaPairsOf (s : GState) (e : Ent) : List (Nat × Nat) :=
  e.rels.filterMap (fun rid =>
    match findEnt s rid with
    | some r => if r.isIsa ∧ r.src = e.eid then some (r.src, r.dst) else none
    | none => none)

/-- The isa graph actually wired into the entities: the (from, to) pairs of
the isa edges present in some entity's incident-relations list with that
entity as source.  `MObject.isa` traverses exactly these pairs, so the
acyclicity of the isa graph is a property of this list. -/
def attachedIsaPairs (s : GState) : List (Nat × Nat) :=
  s.ents.foldr (fun e acc => isaPairsOf s e ++ acc) []

/-- Witness state for C1: two nodes `0` and `1` with one isa edge `2`
from `1` to `0` (so `1.isa(0)` holds); attempting `Isa(frm=0, to=1)` would
close a cycle. -/
def w1State : GState :=
  { ents :=
      [ { eid := 0, cls := .node, isIsa := false, src := 0, dst := 0,
          props := [], rels := [2], deleted := false },
        { eid := 1, cls := .node, isIsa := false, src := 0, dst := 0,
          props := [], rels := [2], deleted := false },
        { eid := 2, cls := .isa, isIsa := true, src := 1, dst := 0,
          props := [], rels := [], deleted := false } ],
    topNode := 50, topRelation := 51, registry := [2] }

/-- Failing-input state for C2: nodes `A = 0`, `B = 1`, `C = 2`, isa edges
`3 : B → C` and the redundant `4 : A → C`; per the spec, constructing
`Isa(frm=A, to=B)` should be accepted and delete edge `4`. -/
def w2State : GState :=
  { ents :=
      [ { eid := 0, cls := .node, isIsa := false, src := 0, dst := 0,
          props := [], rels := [4], deleted := false },
        { eid := 1, cls := .node, isIsa := false, src := 0, dst := 0,
          props := [], rels := [3], deleted := false },
        { eid := 2, cls := .node, isIsa := false, src := 0, dst := 0,
          props := [], rels := [3, 4], deleted := false },
        { eid := 3, cls := .isa, isIsa := true, src := 1, dst := 2,
          props := [], rels := [], deleted := false },
        { eid := 4, cls := .isa, isIsa := true, src := 0, dst := 2,
          props := [], rels := [], deleted := false } ],
    topNode := 50, topRelation := 51, registry := [3, 4] }

/-- Failing-input state for C3: node `0` whose only outgoing isa edge is
`2 : 0 → 1`; deleting that edge should auto-create a replacement isa edge
from `0` to `topNode = 10`. -/
def w3State : GState :=
  { ents :=
      [ { eid := 0, cls := .node, isIsa := false, src := 0, dst := 0,
          props := [], rels := [2], deleted := false },
        { eid := 1, cls := .node, isIsa := false, src := 0, dst := 0,
          props := [], rels := [2], deleted := false },
        { eid := 2, cls := .isa, isIsa := true, src := 0, dst := 1,
          props := [], rels := [], deleted := false } ],
    topNode := 10, topRelation := 11, registry := [2] }

/-- Witness state for C4 (in the style of the executable model of
relationproperties.py, whose isa edges are plain relations): relation type
`1`, nodes `2` and `3`, relation instance `4 : 2 → 3` carrying the Symmetric
property, and isa edge `6 : 4 → 1` making `4.isa(1)` true. -/
def w4State : GState :=
  { ents :=
      [ { eid := 1, cls := .rel, isIsa := false, src := 2, dst := 2,
          props := [], rels := [6], deleted := false },
        { eid := 2, cls := .node, isIsa := false, src := 0, dst := 0,
          props := [], rels := [4], deleted := false },
        { eid := 3, cls := .node, isIsa := false, src := 0, dst := 0,
          props := [], rels := [4], deleted := false },
        { eid := 4, cls := .rel, isIsa := false, src := 2, dst := 3,
          props := [.symmetric], rels := [6], deleted := false },
        { eid := 6, cls := .rel, isIsa := true, src := 4, dst := 1,
          props := [], rels := [], deleted := false } ],
    topNode := 100, topRelation := 101, registry := [4, 6] }

/-- Witness state for C5: relation type `1`, nodes `2` and `3`, and a
transitive-relation cycle `4 : 2 → 3`, `5 : 3 → 2` (both isa `1` through the
isa edges `6` and `7`), so the naive closure would loop forever without the
`_omit` guard. -/
def w5State : GState :=
  { ents :=
      [ { eid := 1, cls := .rel, isIsa := false, src := 2, dst := 2,
          props := [], rels := [6, 7], deleted := false },
        { eid := 2, cls := .node, isIsa := false, src := 0, dst := 0,
          props := [], rels := [4, 5], deleted := false },
        { eid := 3, cls := .node, isIsa := false, src := 0, dst := 0,
          props := [], rels := [4, 5], deleted := false },
        { eid := 4, cls := .rel, isIsa := false, src := 2, dst := 3,
          props := [.transitive], rels := [6], deleted := false },
        { eid := 5, cls := .rel, isIsa := false, src := 3, dst := 2,
          props := [.transitive], rels := [7], deleted := false },
        { eid := 6, cls := .rel, isIsa := true, src := 4, dst := 1,
          props := [], rels := [], deleted := false },
        { eid := 7, cls := .rel, isIsa := true, src := 5, dst := 1,
          props := [], rels := [], deleted := false } ],
    topNode := 100, topRelation := 101, registry := [4, 5, 6, 7] }

/-- The relation-type entity `1` of `w4State`. -/
def w4Type : Ent :=
  { eid := 1, cls := .rel, isIsa := false, src := 2, dst := 2,
    props := [], rels := [6], deleted := false }

/-- The symmetric relation instance `4 : 2 → 3` of `w4State`. -/
def w4Rel : Ent :=
  { eid := 4, cls := .rel, isIsa := false, src := 2, dst := 3,
    props := [.symmetric], rels := [6], deleted := false }

/-- The node `3` of `w4State`. -/
def w4NodeB : Ent :=
  { eid := 3, cls := .node, isIsa := false, src := 0, dst := 0,
    props := [], rels := [4], deleted := false }

/-- The relation-type entity `1` of `w5State`. -/
def w5Type : Ent :=
  { eid := 1, cls := .rel, isIsa := false, src := 2, dst := 2,
    props := [], rels := [6, 7], deleted := false }

/-- Primitive Python values stored in attributes (attributes.py).  `noneB`
is Python `None`: the source systematically uses `x is not None` to
distinguish "no value given", so `None` is an ordinary value here.  Floats
are not modelled (no claim mentions them). -/
inductive PBase where
  | intB (n : Int)
  | strB (s : String)
  | boolB (b : Bool)
  | noneB
deriving DecidableEq, Repr

/-- An attribute value: a primitive, a set of primitives (Python `set`), or
a list of primitives (Python `list`, used for `choices`). -/
inductive PVal where
  | prim (p : PBase)
  | setV (l : List PBase)
  | listV (l : List PBase)
deriving DecidableEq, Repr

/-- The attribute kinds of `TYPES` (attributes.py:39). -/
inductive AKind where
  | text
  | mtext
  | intK
  | floatK
  | color
  | setK
  | boolK
  | choices
  | unknown
deriving DecidableEq, Repr

/-- An attribute validator: either a user-supplied function (a single
argument, returning the possibly modified value or raising), or the
internal `Item._choiceValidator` closed over its `_choices` list
(attributes.py:138-147). -/
inductive AValidator where
  | user (f : PVal → Except String PVal)
  | choiceV (cs : List PBase)

/-- Attributes.Item (attributes.py:59-123): one element of an attributes
dictionary.  Fields are exactly the instance attributes the constructor
sets. -/
structure Item where
  key : String
  value : PVal
  final : Bool
  editable : Bool
  default : PVal
  validator : Option AValidator
  system : Bool
  kind : AKind

/-- Is `needle` a contiguous substring of the character list? -/
def hasSubAux (needle : List Char) : List Char → Bool
  | [] => needle.isEmpty
  | c :: t => needle.isPrefixOf (c :: t) || hasSubAux needle t

/-- `re.search(needle, hay)` for a literal needle over an already
case-normalised haystack. -/
def strHas (hay needle : String) : Bool :=
  hasSubAux needle.toList hay.toList

/-- Kind inference of `Item.__init__` (attributes.py:94-114) when the `kind`
argument is `None`: from the Python type of the value, with the
color/colour key-name test (case-insensitive substring) and the
newline-means-mtext test for strings; `None` has type `NoneType`, falling to
the `unknown` arm. -/
def inferKind (key : String) (value : PVal) : AKind :=
  match value with
  | .prim (.strB s) =>
    if strHas key.toLower "color" || strHas key.toLower "colour" then .color
    else if s.toList.contains '\n' then .mtext
    else .text
  | .prim (.intB _) => .intK
  | .prim (.boolB _) => .boolK
  | .prim .noneB => .unknown
  | .setV _ => .setK
  | .listV _ => .choices

/-- Item._doChoicesList2ValAndList (attributes.py:125-136) on the nonempty
list `c :: rest`: the first item is the current value; if it is repeated in
the rest, the rest is the choices list, otherwise the whole list is. -/
def doChoices (c : PBase) (rest : List PBase) : PBase × List PBase :=
  if c ∈ rest then (c, rest) else (c, c :: rest)

/-- Item.__init__ (attributes.py:63-123): infers the kind when none is
given, and for kind `choices` with no validator requires the value to be a
nonempty list, replaces the value by its first element and installs the
internal choice validator (`_doChoicesList2ValAndList` +
`_choiceValidator`).  `system` always starts `False`.  The `kind not in
TYPES` check is vacuous here because kinds are passed as `AKind`. -/
def mkItem (key : String) (value : PVal) (final editable : Bool)
    (kindArg : Option AKind) (default : PVal) (validator : Option AValidator) :
    Except String Item :=
  let kind := kindArg.getD (inferKind key value)
  if kind = AKind.choices ∧ validator.isNone then
    match value with
    | .listV (c :: rest) =>
      let vc := doChoices c rest
      .ok { key := key, value := .prim vc.1, final := final,
            editable := editable, default := default,
            validator := some (.choiceV vc.2), system := false, kind := kind }
    | _ =>
      .error "TypeError: cannot infer validator for kind choices unless value is a list"
  else
    .ok { key := key, value := value, final := final, editable := editable,
          default := default, validator := validator, system := false,
          kind := kind }

/-- Apply a validator to a proposed value.  The internal choice validator
(attributes.py:138-147) returns the choices list on `None`, accepts a value
in its choices list, and raises otherwise. -/
def applyValidator : AValidator → PVal → Except String PVal
  | .user f, v => f v
  | .choiceV cs, .prim .noneB => .ok (.listV cs)
  | .choiceV cs, .prim p =>
    if p ∈ cs then .ok (.prim p)
    else .error "ValueError: value should be one of the choices"
  | .choiceV _, _ => .error "ValueError: value should be one of the choices"

/-- The `cumulativeValue` extension step of `Attributes._get`
(attributes.py:430-433, 447-450): `cumulativeValue += list(value)` when the
value is `Iterable`, else `cumulativeValue.append(value)`.  Python strings
are `Iterable`, so a string value decomposes into its one-character
strings; sets and lists contribute their elements; other primitives are
appended whole. -/
def explode : PVal → List PBase
  | .prim (.strB s) => s.toList.map (fun c => PBase.strB (String.mk [c]))
  | .prim p => [p]
  | .setV l => l
  | .listV l => l

/-- Python `set(l)` over primitive values, canonically represented as the
duplicate-free sublist keeping first occurrences. -/
def mkSet (l : List PBase) : List PBase :=
  l.dedup

/-- Result of `Attributes._get`: an `Item`, Python `None`, or a raised
exception. -/
inductive GetRes where
  | item (it : Item)
  | noneR
  | err (m : String)

/-- An attributes store (class Attributes, attributes.py:49): the local
`attrs` dict (association list in insertion order, as a Python dict) and
the parent stores (`getParents()`, attributes.py:315-320, resolved through
the owner; modelled as a direct list).  Parent stores are mutable shared
state: `_get` can materialize items into them, so operations thread updated
stores. -/
inductive Attributes where
  | mk (attrs : List (String × Item)) (parents : List Attributes)

/-- The local attrs dict of a store. -/
def Attributes.attrs : Attributes → List (String × Item)
  | .mk a _ => a

/-- The parent stores of a store. -/
def Attributes.parents : Attributes → List Attributes
  | .mk _ p => p

/-- Python `self.attrs[key]` lookup (missing key → `none`). -/
def getLocal (l : List (String × Item)) (k : String) : Option Item :=
  (l.find? (fun p => p.1 = k)).map Prod.snd

/-- Python `self.attrs[key] = item`: replace in place, or append a new key
in insertion order. -/
def setLocal (l : List (String × Item)) (k : String) (it : Item) :
    List (String × Item) :=
  if (l.find? (fun p => p.1 = k)).isSome then
    l.map (fun p => if p.1 = k then (k, it) else p)
  else l ++ [(k, it)]

/-- The `for p in self.getParents()` loop of `Attributes._get`
(attributes.py:436-452) plus the function tail (453-462), with
`includeInherited = True` (every call reached from the claims passes it).
`nextSelf` is the re-entrant `self._get(key, ...)` call made after
materializing a local item from an ancestor default (445); `nextP` is the
recursive `p._get(key)` call (438), both at the next fuel level.  `done`
holds the already-visited (possibly mutated) parents, `cumVal` is
`cumulativeValue` and `cum` is `cumulativeRecord` tagged with whether it
aliases the local item.  The tail writes `set(cumulativeValue)` into the
aliased record and falls off the end of the function, returning `None`
(the source has no `return` after the assignment at 456); a
non-`'set'`-kind cumulative record raises `TypeError` (460).  A cumulative
record aliasing a parent-owned item is impossible (`_get` never returns a
`'set'`-kind item, since that path falls through to `None`), so that arm is
marked with an explicit error result instead of a write-back into the
parent. -/
def parentLoop (nextSelf : List (String × Item) → List Attributes →
      Attributes × GetRes)
    (nextP : Attributes → Attributes × GetRes) (key : String)
    (attrs : List (String × Item)) :
    List Attributes → List Attributes → List PBase → Option (Bool × Item) →
    Attributes × GetRes
  | done, [], cumVal, cum =>
    match cum with
    | none => (.mk attrs done, .noneR)
    | some (isLoc, rec) =>
      if rec.kind = AKind.setK then
        if isLoc then
          (.mk (setLocal attrs key { rec with value := .setV (mkSet cumVal) })
            done, .noneR)
        else (.mk attrs done, .err "unreachable: cumulative record aliases a parent item")
      else (.mk attrs done, .err "TypeError: unexpected cumulative kind")
  | done, p :: rest, cumVal, cum =>
    match nextP p with
    | (p2, .err m) => (.mk attrs (done ++ p2 :: rest), .err m)
    | (p2, .noneR) => parentLoop nextSelf nextP key attrs (done ++ [p2]) rest cumVal cum
    | (p2, .item v) =>
      let cum2 := if v.kind = AKind.setK ∧ cum.isNone then some (false, v) else cum
      if v.default ≠ PVal.prim .noneB ∧ (getLocal attrs key).isNone then
        match mkItem key v.default v.final true (some v.kind) v.default none with
        | .error m => (.mk attrs (done ++ p2 :: rest), .err m)
        | .ok newIt => nextSelf (setLocal attrs key newIt) (done ++ p2 :: rest)
      else
        match cum2 with
        | some c =>
          parentLoop nextSelf nextP key attrs (done ++ [p2]) rest
            (cumVal ++ explode v.value) (some c)
        | none => (.mk attrs (done ++ p2 :: rest), .item v)

/-- Attributes._get (attributes.py:418-462) with `includeInherited = True`:
the local block (424-435) — a local `'set'`-kind item becomes the
cumulative record and contributes its exploded value, any other local item
returns immediately — then the parent loop and tail (`parentLoop`).  Fuel
bounds the recursion depth (`p._get` into parents and the re-entrant call
after materialization); exhausted fuel models Python's unbounded recursion
as a `RecursionError`. -/
def getA : Nat → Attributes → String → Bool → Attributes × GetRes
  | 0, a, _, _ => (a, .err "RecursionError")
  | fuel + 1, .mk attrs parents, key, incLoc =>
    match incLoc, getLocal attrs key with
    | true, some it =>
      if it.kind = AKind.setK then
        parentLoop (fun a2 ps => getA fuel (.mk a2 ps) key incLoc)
          (fun p => getA fuel p key true) key attrs [] parents
          (explode it.value) (some (true, it))
      else (.mk attrs parents, .item it)
    | _, _ =>
      parentLoop (fun a2 ps => getA fuel (.mk a2 ps) key incLoc)
        (fun p => getA fuel p key true) key attrs [] parents [] none

/-- Attributes.get (attributes.py:466-477): `ret.value if ret else None`,
with a raised exception propagating. -/
def get (fuel : Nat) (a : Attributes) (key : String) :
    Attributes × Except String PVal :=
  match getA fuel a key true with
  | (a2, .item it) => (a2, .ok it.value)
  | (a2, .noneR) => (a2, .ok (.prim .noneB))
  | (a2, .err m) => (a2, .error m)

/-- Attributes.config, body after the parent-final check
(attributes.py:400-416), on the store `a1` left by the `_get` pre-checks.
Mirrors in order: `oldRec = self.attrs[key]`; the not-editable check (401);
`oldValue = oldRec.value`; installing the `validator` argument on the item
(404) — before any validation; validating and committing the value
(405-409), where a raising validator aborts with the validator already
installed; the remaining field updates (410-414); and the observer
notification (415-416), which fires iff the raw `value` argument is
non-`None`, differs from `oldValue`, and notification is not suppressed —
and carries the raw `value`, not the committed `oldRec.value`.  The middle
component of the result lists the `(key, value)` notification events. -/
def configBody (a1 : Attributes) (key : String) (value : PVal)
    (final editable : Option Bool) (kind : Option AKind) (default : PVal)
    (system : Option Bool) (validator : Option AValidator)
    (suppressNotify : Bool) : Attributes × List (String × PVal) × Option String :=
  match getLocal a1.attrs key with
  | none => (a1, [], some "KeyError: key not found")
  | some oldRec =>
    if oldRec.editable = false ∧ value ≠ PVal.prim .noneB ∧
        value ≠ oldRec.value then
      (a1, [], some "AttributeError: attribute is not editable")
    else
      let oldValue := oldRec.value
      let r1 := match validator with
                | some vd => { oldRec with validator := some vd }
                | none => oldRec
      match (if value ≠ PVal.prim .noneB then
               match r1.validator with
               | some f => (applyValidator f value).map
                   (fun nv => { r1 with value := nv })
               | none => Except.ok { r1 with value := value }
             else Except.ok r1) with
      | .error m => (.mk (setLocal a1.attrs key r1) a1.parents, [], some m)
      | .ok r2 =>
        let r3 := { r2 with
          final := final.getD r2.final,
          editable := editable.getD r2.editable,
          kind := kind.getD r2.kind,
          default := if default ≠ PVal.prim .noneB then default else r2.default,
          system := system.getD r2.system }
        let a2 := Attributes.mk (setLocal a1.attrs key r3) a1.parents
        if value ≠ PVal.prim .noneB ∧ oldValue ≠ value ∧
            suppressNotify = false then
          (a2, [(key, value)], none)
        else (a2, [], none)

/-- Attributes.config (attributes.py:369-416) with `_record = None` (no
embedded flow passes it): raises `KeyError` when the key has no local item
(385-386) — before any lookup that could materialize one; then
`pRec = self._get(key, includeLocals=False)` and the parent-final check
(396-399); then the body (`configBody`). -/
def config (fuel : Nat) (a : Attributes) (key : String) (value : PVal)
    (final editable : Option Bool) (kind : Option AKind) (default : PVal)
    (system : Option Bool) (validator : Option AValidator)
    (suppressNotify : Bool) : Attributes × List (String × PVal) × Option String :=
  if (getLocal a.attrs key).isNone then
    (a, [], some "KeyError: key not found")
  else
    match getA fuel a key false with
    | (a1, .err m) => (a1, [], some m)
    | (a1, .item pr) =>
      if pr.final then
        (a1, [], some "AttributeError: cannot override, parent attribute is final")
      else configBody a1 key value final editable kind default system validator
        suppressNotify
    | (a1, .noneR) =>
      configBody a1 key value final editable kind default system validator
        suppressNotify

/-- Attributes.add (attributes.py:322-359):
`pRec = self._get(name, includeLocals=False)` with the parent-final check
(353-356); then `self.attrs[name] = Attributes.Item(name, value)` — the
two-argument constructor, so the kind is inferred from the value and a list
value is transformed by the `choices` machinery — and finally the internal
`config` call (358), which passes every argument except `value`: the
supplied `validator` is installed on the item but never applied to `value`,
and no notification fires (config sees no value change). -/
def add (fuel : Nat) (a : Attributes) (name : String) (value : PVal)
    (final editable : Bool) (kind : Option AKind) (suppressNotify system : Bool)
    (validator : Option AValidator) (default : PVal) :
    Attributes × List (String × PVal) × Option String :=
  match getA fuel a name false with
  | (a1, .err m) => (a1, [], some m)
  | (a1, .item pr) =>
    if pr.final then
      (a1, [], some "AttributeError: cannot override attribute")
    else
      match mkItem name value false true none (.prim .noneB) none with
      | .error m => (a1, [], some m)
      | .ok it0 =>
        config fuel (.mk (setLocal a1.attrs name it0) a1.parents) name
          (.prim .noneB) (some final) (some editable) kind default (some system)
          validator suppressNotify
  | (a1, .noneR) =>
    match mkItem name value false true none (.prim .noneB) none with
    | .error m => (a1, [], some m)
    | .ok it0 =>
      config fuel (.mk (setLocal a1.attrs name it0) a1.parents) name
        (.prim .noneB) (some final) (some editable) kind default (some system)
        validator suppressNotify

/-- An item with the constructor defaults of `Attributes.Item(key, value)`
plus an explicit kind, used to build concrete stores. -/
def baseItem (k : String) (v : PVal) (kd : AKind) : Item :=
  { key := k, value := v, final := false, editable := true,
    default := .prim .noneB, validator := none, system := false, kind := kd }

/-- The parent store of the C6 counterexample: its own `'set'`-kind item is
`tags = {2}`. -/
def c6Parent : Attributes :=
  .mk [("tags", baseItem "tags" (.setV [.intB 2]) .setK)] []

/-- Counterexample store for C6: a local `'set'`-kind item `tags = {1}`
under `c6Parent`. -/
def c6Store : Attributes :=
  .mk [("tags", baseItem "tags" (.setV [.intB 1]) .setK)] [c6Parent]

/-- Counterexample store for C7: a parent whose item `x` is `final` with
value `5` and declared default `7`, and a child with no local items. -/
def c7Parent : Attributes :=
  .mk [("x", { key := "x", value := .prim (.intB 5), final := true,
               editable := true, default := .prim (.intB 7), validator := none,
               system := false, kind := .intK })] []

/-- The child store of the C7 counterexample. -/
def c7Child : Attributes :=
  .mk [] [c7Parent]

/-- A final ancestor item with no declared default, for the C7 witness. -/
def c7wItem : Item :=
  { key := "z", value := .prim (.strB "pv"), final := true, editable := true,
    default := .prim .noneB, validator := none, system := false, kind := .text }

/-- Counterexample store for C8: a single local editable item `n = 5` with
no validator and no parents. -/
def c8Store : Attributes :=
  .mk [("n", baseItem "n" (.prim (.intB 5)) .intK)] []

/-- A validator that normalises every proposed value to `5`. -/
def c8Normalizer : AValidator :=
  .user (fun _ => .ok (.prim (.intB 5)))

/-- A validator that rejects every proposed value. -/
def c8Rejecter : AValidator :=
  .user (fun _ => .error "ValueError: rejected")

/-- The item `Attributes.Item(name, value)` that `add` installs before its
internal `config` call: constructor defaults, kind inferred from the
value. -/
def c10Item0 (k : String) (v : PVal) : Item :=
  { key := k, value := v, final := false, editable := true,
    default := .prim .noneB, validator := none, system := false,
    kind := inferKind k v }

/-- The item left by `add(name, value, final=fin, editable=ed, system=sys,
validator=f)` after the internal `config` call updated the flags and
installed the validator (without ever applying it). -/
def c10Item1 (k : String) (v : PVal) (fin ed sys : Bool) (f : AValidator) :
    Item :=
  { key := k, value := v, final := fin, editable := ed,
    default := .prim .noneB, validator := some f, system := sys,
    kind := inferKind k v }

/-- The parent store of the C9 counterexample: declares `y` (not final)
with a default. -/
def c9Parent : Attributes :=
  .mk [("y", { key := "y", value := .prim (.intB 3), final := false,
               editable := true, default := .prim (.intB 3), validator := none,
               system := false, kind := .intK })] []

/-- Counterexample store for C9: a child with no local item for `y`. -/
def c9Store : Attributes :=
  .mk [] [c9Parent]

lemma findEnt_some_mem {s : GState} {i : Nat} {e : Ent}
    (h : findEnt s i = some e) : e ∈ s.ents ∧ e.eid = i := by
  refine ⟨List.mem_of_find?_eq_some h, ?_⟩
  have := List.find?_some h
  simpa using this

lemma find?_eid_unique {l : List Ent} (hnd : (l.map Ent.eid).Nodup)
    {r : Ent} {i : Nat} (hr : r ∈ l) (he : r.eid = i) :
    l.find? (fun e => e.eid = i) = some r := by
  induction l with
  | nil => cases hr
  | cons e t ih =>
    have hnd2 : e.eid ∉ t.map Ent.eid ∧ (t.map Ent.eid).Nodup := by
      rw [List.map_cons, List.nodup_cons] at hnd
      exact hnd
    by_cases hei : e.eid = i
    · have hfind : (e :: t).find? (fun e => e.eid = i) = some e :=
        List.find?_cons_of_pos _ (by simpa using hei)
      rcases List.mem_cons.mp hr with rfl | hrt
      · exact hfind
      · exfalso
        have : i ∈ t.map Ent.eid := List.mem_map.mpr ⟨r, hrt, he⟩
        exact hnd2.1 (hei ▸ this)
    · have hne : r ≠ e := fun hre => hei (hre ▸ he)
      have hrt : r ∈ t := (List.mem_cons.mp hr).resolve_left hne
      rw [List.find?_cons_of_neg _ (by simpa using hei)]
      exact ih hnd2.2 hrt

lemma findEnt_of_mem_entIds {s : GState} (hnd : (entIds s).Nodup) {i : Nat}
    (h : i ∈ entIds s) : ∃ e, findEnt s i = some e ∧ e ∈ s.ents ∧ e.eid = i := by
  rcases List.mem_map.mp h with ⟨e, he, heid⟩
  exact ⟨e, find?_eid_unique hnd he heid, he, heid⟩

lemma mem_entIds_of_mem {s : GState} {e : Ent} (h : e ∈ s.ents) :
    e.eid ∈ entIds s :=
  List.mem_map.mpr ⟨e, h, rfl⟩

lemma freeCount_lt {s : GState} {om om2 : List Nat} {x : Nat}
    (hmem : x ∈ entIds s) (hnot : x ∉ om)
    (hsub : ∀ y, y ∈ om → y ∈ om2) (hin : x ∈ om2) :
    freeCount s om2 < freeCount s om := by
  unfold freeCount
  have hsubl : List.Sublist ((entIds s).filter (fun i => i ∉ om2))
      ((entIds s).filter (fun i => i ∉ om)) := by
    apply List.monotone_filter_right
    intro a ha
    simp only [decide_eq_true_eq] at ha ⊢
    exact fun hmm => ha (hsub a hmm)
  have hle := hsubl.length_le
  rcases Nat.lt_or_ge ((entIds s).filter (fun i => i ∉ om2)).length
      ((entIds s).filter (fun i => i ∉ om)).length with hlt | hge
  · exact hlt
  · exfalso
    have heq : (entIds s).filter (fun i => i ∉ om2) =
        (entIds s).filter (fun i => i ∉ om) :=
      hsubl.eq_of_length (Nat.le_antisymm hle hge)
    have hx1 : x ∈ (entIds s).filter (fun i => i ∉ om) :=
      List.mem_filter.mpr ⟨hmem, by simpa using hnot⟩
    have hx2 : x ∉ (entIds s).filter (fun i => i ∉ om2) := by
      intro hx
      have := (List.mem_filter.mp hx).2
      simp only [decide_eq_true_eq] at this
      exact this hin
    exact hx2 (heq ▸ hx1)

lemma relLoop_ret {s : GState} {isaF : Nat} {next : Nat → List Nat → QRes}
    {rids : List Nat} {selfId relTypeId toNodeId : Nat} {om : List Nat}
    (hall : ∀ rid ∈ rids,
      ∃ b, relOne s isaF next rid selfId relTypeId toNodeId om = QRes.ret b) :
    ∃ b, relLoop s isaF next rids selfId relTypeId toNodeId om = QRes.ret b := by
  induction rids with
  | nil => exact ⟨false, rfl⟩
  | cons rid rest ih =>
    rcases hall rid (List.mem_cons_self _ _) with ⟨b, hb⟩
    cases b with
    | true => exact ⟨true, by rw [relLoop, hb]⟩
    | false =>
      rcases ih (fun rid' h' => hall rid' (List.mem_cons_of_mem _ h')) with ⟨b', hb'⟩
      exact ⟨b', by rw [relLoop, hb]; exact hb'⟩

lemma propLoop_ret {next : Nat → List Nat → QRes} {ps : List RProp} {r : Ent}
    {selfId toNodeId : Nat} {om : List Nat}
    (hall : ∀ p ∈ ps,
      ∃ b, propIsRelated next p r selfId toNodeId om = QRes.ret b) :
    ∃ b, propLoop next ps r selfId toNodeId om = QRes.ret b := by
  induction ps with
  | nil => exact ⟨false, rfl⟩
  | cons p rest ih =>
    rcases hall p (List.mem_cons_self _ _) with ⟨b, hb⟩
    cases b with
    | true => exact ⟨true, by rw [propLoop, hb]⟩
    | false =>
      rcases ih (fun p' h' => hall p' (List.mem_cons_of_mem _ h')) with ⟨b', hb'⟩
      exact ⟨b', by rw [propLoop, hb]; exact hb'⟩

lemma propIsRelated_ret {s : GState} {C : Nat} {next : Nat → List Nat → QRes}
    {p : RProp} {r : Ent} {selfId toNodeId : Nat} {om : List Nat}
    (HM : ∀ sid om', sid ∈ entIds s → freeCount s om' < C →
      ∃ b, next sid om' = QRes.ret b)
    (hdst : r.dst ∈ entIds s) (hself : selfId ∈ entIds s)
    (hfc : freeCount s om ≤ C) :
    ∃ b, propIsRelated next p r selfId toNodeId om = QRes.ret b := by
  cases p with
  | reflexive => exact ⟨_, rfl⟩
  | symmetric => exact ⟨_, rfl⟩
  | transitive =>
    rw [propIsRelated]
    by_cases hmem : selfId ∈ om.insert toNodeId
    · exact ⟨false, by simp [hmem]⟩
    · have hnot : selfId ∉ om := fun h => hmem (List.mem_insert_of_mem h)
      have hlt : freeCount s ((om.insert toNodeId).insert selfId) < freeCount s om := by
        apply freeCount_lt hself hnot
        · intro y hy
          exact List.mem_insert_of_mem (List.mem_insert_of_mem hy)
        · exact List.mem_insert_self _ _
      rcases HM r.dst ((om.insert toNodeId).insert selfId) hdst
          (Nat.lt_of_lt_of_le hlt hfc) with ⟨b, hb⟩
      exact ⟨b, by simp only [hmem, if_false, ite_false]; exact hb⟩

lemma relOne_ret {s : GState} {isaF C : Nat} {next : Nat → List Nat → QRes}
    {rid selfId relTypeId toNodeId : Nat} {om : List Nat} {r : Ent}
    (HM : ∀ sid om', sid ∈ entIds s → freeCount s om' < C →
      ∃ b, next sid om' = QRes.ret b)
    (hrf : findEnt s rid = some r) (hdst : r.dst ∈ entIds s)
    (hisa : ∃ b, isaB s isaF rid relTypeId = QRes.ret b)
    (hself : selfId ∈ entIds s) (hfc : freeCount s om ≤ C) :
    ∃ b, relOne s isaF next rid selfId relTypeId toNodeId om = QRes.ret b := by
  rcases hisa with ⟨bi, hbi⟩
  rw [relOne, hrf]
  cases bi with
  | false => exact ⟨false, by rw [hbi]⟩
  | true =>
    rw [hbi]
    by_cases hd : r.src = selfId ∧ r.dst = toNodeId
    · exact ⟨true, by simp [hd]⟩
    · have hploop := @propLoop_ret next r.props r selfId toNodeId om
        (fun p _ => propIsRelated_ret HM hdst hself hfc)
      rcases hploop with ⟨b, hb⟩
      exact ⟨b, by simp only [hd, if_false, ite_false]; exact hb⟩

/-- Master termination lemma for the boolean `isRelatedTo` query: in a
well-formed state whose isa queries against `relTypeId` all return, any fuel
exceeding the number of entities not yet in `_omit` suffices for the query to
return a boolean (it neither runs out of recursion depth nor raises). -/
lemma isRelatedToB_total {s : GState} {isaF relTypeId toNodeId : Nat}
    (hwf : WFGraph s)
    (hrt : ∃ rt, findEnt s relTypeId = some rt ∧ rt.isRel = true)
    (htot : isaTotalFor s isaF relTypeId) :
    ∀ fuel selfId om, selfId ∈ entIds s → freeCount s om < fuel →
      ∃ b, isRelatedToB s isaF fuel selfId relTypeId toNodeId om = QRes.ret b := by
  intro fuel
  induction fuel with
  | zero => intro selfId om _ hfc; omega
  | succ n ih =>
    intro selfId om hself hfc
    rcases hrt with ⟨rt, hrtf, hrtrel⟩
    rcases findEnt_of_mem_entIds hwf.1 hself with ⟨se, hsef, hsem, hseid⟩
    have hloop : ∃ b,
        relLoop s isaF
          (fun sid om' => isRelatedToB s isaF n sid relTypeId toNodeId om')
          se.rels selfId relTypeId toNodeId om = QRes.ret b := by
      apply relLoop_ret
      intro rid hrid
      rcases hwf.2 se hsem rid hrid with ⟨r, hrm, hre, hrrel, _, hrdst⟩
      have hrfind : findEnt s rid = some r := find?_eid_unique hwf.1 hrm hre
      exact relOne_ret (fun sid om' hs hf => ih sid om' hs hf)
        hrfind hrdst (hre ▸ htot r hrm hrrel) hself (Nat.le_of_lt_succ hfc)
    rcases hloop with ⟨b, hb⟩
    refine ⟨b, ?_⟩
    rw [isRelatedToB, hrtf, hsef]
    simp only [hrtrel]
    simpa using hb

lemma relLoop_ret_true {s : GState} {isaF : Nat} {next : Nat → List Nat → QRes}
    {rids : List Nat} {selfId relTypeId toNodeId rid0 : Nat} {om : List Nat}
    (hall : ∀ rid ∈ rids,
      ∃ b, relOne s isaF next rid selfId relTypeId toNodeId om = QRes.ret b)
    (hmem : rid0 ∈ rids)
    (h0 : relOne s isaF next rid0 selfId relTypeId toNodeId om = QRes.ret true) :
    relLoop s isaF next rids selfId relTypeId toNodeId om = QRes.ret true := by
  induction rids with
  | nil => cases hmem
  | cons rid rest ih =>
    rcases hall rid (List.mem_cons_self _ _) with ⟨b, hb⟩
    cases b with
    | true => rw [relLoop, hb]
    | false =>
      have hne : rid0 ≠ rid := by
        rintro rfl
        rw [h0] at hb
        cases hb
      have hmem' : rid0 ∈ rest := (List.mem_cons.mp hmem).resolve_left hne
      rw [relLoop, hb]
      exact ih (fun rid' h' => hall rid' (List.mem_cons_of_mem _ h')) hmem'

lemma propLoop_ret_true {next : Nat → List Nat → QRes} {ps : List RProp}
    {r : Ent} {selfId toNodeId : Nat} {om : List Nat} {p0 : RProp}
    (hall : ∀ p ∈ ps,
      ∃ b, propIsRelated next p r selfId toNodeId om = QRes.ret b)
    (hmem : p0 ∈ ps)
    (h0 : propIsRelated next p0 r selfId toNodeId om = QRes.ret true) :
    propLoop next ps r selfId toNodeId om = QRes.ret true := by
  induction ps with
  | nil => cases hmem
  | cons p rest ih =>
    rcases hall p (List.mem_cons_self _ _) with ⟨b, hb⟩
    cases b with
    | true => rw [propLoop, hb]
    | false =>
      have hne : p0 ≠ p := by
        rintro rfl
        rw [h0] at hb
        cases hb
      have hmem' : p0 ∈ rest := (List.mem_cons.mp hmem).resolve_left hne
      rw [propLoop, hb]
      exact ih (fun p' h' => hall p' (List.mem_cons_of_mem _ h')) hmem'

/-- C4: for every relation instance `r` from `a` to `b` whose `properties`
list carries the Symmetric behaviour (that is, whose type declares or
inherits `SymmetricProperty`, as installed by `resetProperties` in
relationproperties.py), and every relation type `relType` with
`r.isa(relType)`, the boolean query `b.isRelatedTo(relType, a)` returns
`True`: the explicit edge (a,b) also yields (b,a) through
`SymmetricProperty.isRelated`. -/
theorem C4_symmetric_edge_reversed (s : GState) (isaF : Nat)
    (a b rEid relTypeId : Nat) (r se : Ent)
    (hwf : WFGraph s)
    (hrt : ∃ rt, findEnt s relTypeId = some rt ∧ rt.isRel = true)
    (htot : isaTotalFor s isaF relTypeId)
    (hrf : findEnt s rEid = some r)
    (hsrc : r.src = a) (hdst : r.dst = b)
    (hsym : RProp.symmetric ∈ r.props)
    (hisa : isaB s isaF rEid relTypeId = QRes.ret true)
    (hbf : findEnt s b = some se) (hin : rEid ∈ se.rels) :
    isRelatedToB s isaF (qFuel s) b relTypeId a [] = QRes.ret true := by
  obtain ⟨hsem, hseid⟩ := findEnt_some_mem hbf
  have hbid : b ∈ entIds s := hseid ▸ mem_entIds_of_mem hsem
  have HM : ∀ sid om', sid ∈ entIds s →
      freeCount s om' < (entIds s).length →
      ∃ bb, isRelatedToB s isaF ((entIds s).length) sid relTypeId a om' =
        QRes.ret bb :=
    fun sid om hs hf => isRelatedToB_total hwf hrt htot _ sid om hs hf
  have hfc0 : freeCount s [] ≤ (entIds s).length := List.length_filter_le _ _
  have hall : ∀ rid ∈ se.rels,
      ∃ bb, relOne s isaF
        (fun sid om' => isRelatedToB s isaF ((entIds s).length) sid relTypeId a om')
        rid b relTypeId a [] = QRes.ret bb := by
    intro rid hrid
    rcases hwf.2 se hsem rid hrid with ⟨r', hrm, hre, hrrel, _, hrdst⟩
    have hrfind : findEnt s rid = some r' := find?_eid_unique hwf.1 hrm hre
    exact relOne_ret HM hrfind hrdst (hre ▸ htot r' hrm hrrel) hbid hfc0
  have hhit : relOne s isaF
      (fun sid om' => isRelatedToB s isaF ((entIds s).length) sid relTypeId a om')
      rEid b relTypeId a [] = QRes.ret true := by
    rw [relOne, hrf, hisa]
    by_cases hd : r.src = b ∧ r.dst = a
    · simp [hd]
    · have hsymval : propIsRelated
          (fun sid om' => isRelatedToB s isaF ((entIds s).length) sid relTypeId a om')
          .symmetric r b a [] = QRes.ret true := by
        rw [propIsRelated]
        simp [hsrc, hdst]
      have hallp : ∀ p ∈ r.props,
          ∃ bb, propIsRelated
            (fun sid om' => isRelatedToB s isaF ((entIds s).length) sid relTypeId a om')
            p r b a [] = QRes.ret bb :=
        fun p _ => propIsRelated_ret HM (hdst ▸ hbid) hbid hfc0
      have hpl := propLoop_ret_true hallp hsym hsymval
      simp only [hd, if_false, ite_false]
      exact hpl
  have hloop := relLoop_ret_true hall hin hhit
  rcases hrt with ⟨rt, hrtf, hrtrel⟩
  show isRelatedToB s isaF ((entIds s).length + 1) b relTypeId a [] = QRes.ret true
  rw [isRelatedToB, hrtf, hbf]
  simp only [hrtrel]
  simpa using hloop

/-- Witness for C4 on `w4State`: the symmetric relation instance `4 : 2 → 3`
of type `1` makes `3.isRelatedTo(1, 2)` return `True`. -/
theorem C4_witness :
    isRelatedToB w4State 4 (qFuel w4State) 3 1 2 [] = QRes.ret true := by
  refine C4_symmetric_edge_reversed w4State 4 2 3 4 1 w4Rel w4NodeB
    ?_ ?_ ?_ ?_ ?_ ?_ ?_ ?_ ?_ ?_
  · exact ⟨by decide, by decide⟩
  · exact ⟨w4Type, by decide, by decide⟩
  · unfold isaTotalFor
    decide
  · decide
  · decide
  · decide
  · decide
  · decide
  · decide
  · decide

/-- C5: in a well-formed finite model whose isa queries against `relType`
all return, the boolean query `isRelatedTo(relType, toNode, omit)` returns a
boolean with recursion-depth budget `number of entities + 1`, for any
starting entity and any `omit` set — even when the non-isa relation
instances form cycles: each transitive hop recurses with `omit` enlarged by
the current origin and returns immediately when the origin is already in
`omit`, so the recursion depth is bounded by the number of entities. -/
theorem C5_isRelatedTo_terminates (s : GState) (isaF relTypeId toNodeId selfId : Nat)
    (om : List Nat) (hwf : WFGraph s)
    (hrt : ∃ rt, findEnt s relTypeId = some rt ∧ rt.isRel = true)
    (htot : isaTotalFor s isaF relTypeId)
    (hself : selfId ∈ entIds s) :
    ∃ b, isRelatedToB s isaF (qFuel s) selfId relTypeId toNodeId om = QRes.ret b := by
  apply isRelatedToB_total hwf hrt htot _ _ _ hself
  have : freeCount s om ≤ (entIds s).length := List.length_filter_le _ _
  unfold qFuel
  omega

/-- Witness for C5 on the cyclic state `w5State`: the query from node `2`
for an unrelated target `99` over the transitive type `1` returns (it does
not spin on the cycle `2 → 3 → 2`). -/
theorem C5_witness :
    ∃ b, isRelatedToB w5State 5 (qFuel w5State) 2 1 99 [] = QRes.ret b := by
  refine C5_isRelatedTo_terminates w5State 5 1 99 2 [] ?_ ?_ ?_ ?_
  · exact ⟨by decide, by decide⟩
  · exact ⟨w5Type, by decide, by decide⟩
  · unfold isaTotalFor
    decide
  · decide

lemma find?_append_some {α : Type} {l1 l2 : List α} {p : α → Bool} {a : α}
    (h : l1.find? p = some a) : (l1 ++ l2).find? p = some a := by
  induction l1 with
  | nil => cases h
  | cons x t ih =>
    by_cases hx : p x
    · rw [List.find?_cons_of_pos _ hx] at h
      rw [List.cons_append, List.find?_cons_of_pos _ hx]
      exact h
    · rw [List.find?_cons_of_neg _ (by simpa using hx)] at h
      rw [List.cons_append, List.find?_cons_of_neg _ (by simpa using hx)]
      exact ih h

lemma tlOk_append {a b : TL} (ha : tlOk a = true) (hb : tlOk b = true) :
    tlOk (tlAppend a b) = true := by
  induction a with
  | obj i => cases ha
  | nilL => simpa [tlAppend] using hb
  | consL h t iha ihb =>
    cases h with
    | obj i =>
      rw [tlOk] at ha
      simpa [tlAppend, tlOk] using ihb ha
    | nilL =>
      rw [show tlOk (TL.consL TL.nilL t) = (tlOk TL.nilL && tlOk t) from rfl] at ha
      simp only [Bool.and_eq_true] at ha
      have := ihb ha.2
      simp [tlAppend, tlOk, this]
    | consL h2 t2 =>
      rw [show tlOk (TL.consL (TL.consL h2 t2) t) =
        (tlOk (TL.consL h2 t2) && tlOk t) from rfl] at ha
      simp only [Bool.and_eq_true] at ha
      have := ihb ha.2
      simp [tlAppend, tlOk, ha.1, this]

lemma tlObjs_append_right {a b : TL} {x : Nat} (hx : x ∈ tlObjs b) :
    x ∈ tlObjs (tlAppend a b) := by
  induction a with
  | obj i => simpa [tlAppend] using hx
  | nilL => simpa [tlAppend] using hx
  | consL h t _ iht =>
    simp only [tlAppend, tlObjs, List.mem_append]
    exact Or.inr iht

lemma tlObjs_append_left {a b : TL} {x : Nat} (ha : tlOk a = true)
    (hx : x ∈ tlObjs a) : x ∈ tlObjs (tlAppend a b) := by
  induction a with
  | obj i => cases ha
  | nilL => simp [tlObjs] at hx
  | consL h t _ iht =>
    have ht : tlOk t = true := by
      cases h with
      | obj i => simpa [tlOk] using ha
      | nilL =>
        rw [show tlOk (TL.consL TL.nilL t) = (tlOk TL.nilL && tlOk t) from rfl] at ha
        simp only [Bool.and_eq_true] at ha
        exact ha.2
      | consL h2 t2 =>
        rw [show tlOk (TL.consL (TL.consL h2 t2) t) =
          (tlOk (TL.consL h2 t2) && tlOk t) from rfl] at ha
        simp only [Bool.and_eq_true] at ha
        exact ha.2
    simp only [tlObjs, List.mem_append] at hx
    simp only [tlAppend, tlObjs, List.mem_append]
    rcases hx with hx | hx
    · exact Or.inl hx
    · exact Or.inr (iht ht hx)

lemma tfAux_prefix (om : List Nat) (ts : TL) (ret : List Nat) :
    ∃ extra, tfAux om ts ret = ret ++ extra := by
  induction om, ts, ret using tfAux.induct with
  | case1 om ret i => exact ⟨[], by simp [tfAux]⟩
  | case2 om ret => exact ⟨[], by simp [tfAux]⟩
  | case3 om ret i rest ih =>
    have hstep : tfAux om ((TL.obj i).consL rest) ret =
        tfAux om rest (if i ∈ om ∨ i ∈ ret then ret else ret ++ [i]) := rfl
    rcases ih with ⟨e1, he1⟩
    by_cases hc : i ∈ om ∨ i ∈ ret
    · rw [if_pos hc] at he1
      exact ⟨e1, by rw [hstep, if_pos hc]; exact he1⟩
    · rw [if_neg hc] at he1
      refine ⟨[i] ++ e1, ?_⟩
      rw [hstep, if_neg hc, he1, List.append_assoc]
  | case4 om ret item rest hno ih1 ih2 =>
    have hstep : tfAux om (item.consL rest) ret =
        tfAux om rest (ret ++ tfAux ret item []) := by
      cases item with
      | obj i => exact absurd rfl (hno i)
      | nilL => rfl
      | consL a b => rfl
    rcases ih2 with ⟨e2, he2⟩
    refine ⟨tfAux ret item [] ++ e2, ?_⟩
    rw [hstep, he2, List.append_assoc]

lemma mem_tfAux_of_mem_ret {om : List Nat} {ts : TL} {ret : List Nat} {x : Nat}
    (hx : x ∈ ret) : x ∈ tfAux om ts ret := by
  rcases tfAux_prefix om ts ret with ⟨extra, he⟩
  rw [he]
  exact List.mem_append_left _ hx

lemma tfAux_covers {x : Nat} :
    ∀ (om : List Nat) (ts : TL) (ret : List Nat), tlOk ts = true →
      x ∈ tlObjs ts → x ∈ tfAux om ts ret ∨ x ∈ om := by
  intro om ts ret
  induction om, ts, ret using tfAux.induct with
  | case1 om ret i => intro hok; cases hok
  | case2 om ret => intro _ hx; simp [tlObjs] at hx
  | case3 om ret i rest ih =>
    intro hok hx
    have hstep : tfAux om ((TL.obj i).consL rest) ret =
        tfAux om rest (if i ∈ om ∨ i ∈ ret then ret else ret ++ [i]) := rfl
    have hokr : tlOk rest = true := by simpa [tlOk] using hok
    simp only [tlObjs, List.mem_append, List.mem_singleton] at hx
    rcases hx with rfl | hx
    · by_cases hc : x ∈ om ∨ x ∈ ret
      · rcases hc with hc | hc
        · exact Or.inr hc
        · refine Or.inl ?_
          rw [hstep]
          apply mem_tfAux_of_mem_ret
          split
          · exact hc
          · exact List.mem_append_left _ hc
      · refine Or.inl ?_
        rw [hstep, if_neg hc]
        exact mem_tfAux_of_mem_ret (by simp)
    · rcases ih hokr hx with h | h
      · exact Or.inl (by rw [hstep]; exact h)
      · exact Or.inr h
  | case4 om ret item rest hno ih1 ih2 =>
    intro hok hx
    have hstep : tfAux om (item.consL rest) ret =
        tfAux om rest (ret ++ tfAux ret item []) := by
      cases item with
      | obj i => exact absurd rfl (hno i)
      | nilL => rfl
      | consL a b => rfl
    have hoks : tlOk item = true ∧ tlOk rest = true := by
      cases item with
      | obj i => exact absurd rfl (hno i)
      | nilL => exact ⟨rfl, by simpa [tlOk] using hok⟩
      | consL h2 t2 =>
        rw [show tlOk ((TL.consL h2 t2).consL rest) =
          (tlOk (TL.consL h2 t2) && tlOk rest) from rfl] at hok
        simpa [Bool.and_eq_true] using hok
    simp only [tlObjs, List.mem_append] at hx
    rcases hx with hx | hx
    · rcases ih1 hoks.1 hx with h | h
      · refine Or.inl ?_
        rw [hstep]
        exact mem_tfAux_of_mem_ret (List.mem_append_right _ h)
      · refine Or.inl ?_
        rw [hstep]
        exact mem_tfAux_of_mem_ret (List.mem_append_left _ h)
    · rcases ih2 hoks.2 hx with h | h
      · exact Or.inl (by rw [hstep]; exact h)
      · exact Or.inr h

lemma isaTreeLoop_ok {next : Nat → Option TL} {s : GState} {selfId : Nat}
    (hnext : ∀ dst tr, next dst = some tr → tlOk tr = true) :
    ∀ rids kids, isaTreeLoop next s rids selfId = some kids → tlOk kids = true := by
  intro rids
  induction rids with
  | nil =>
    intro kids h
    rw [isaTreeLoop] at h
    cases h
    rfl
  | cons rid rest ih =>
    intro kids h
    rw [isaTreeLoop] at h
    cases hf : findEnt s rid with
    | none => rw [hf] at h; dsimp only at h; cases h
    | some r =>
      rw [hf] at h
      dsimp only at h
      by_cases hg : r.isIsa ∧ r.src = selfId
      · rw [if_pos hg] at h
        cases h1 : next r.dst with
        | none => rw [h1] at h; dsimp only at h; cases h
        | some k1 =>
          cases h2 : isaTreeLoop next s rest selfId with
          | none => rw [h1, h2] at h; dsimp only at h; cases h
          | some more =>
            rw [h1, h2] at h
            dsimp only at h
            cases h
            exact tlOk_append (hnext _ _ h1) (ih _ h2)
      · rw [if_neg hg] at h
        exact ih _ h

lemma isaTree_succ_eq {s : GState} {n selfId : Nat} {se : Ent} {kids : TL}
    (htop : ¬(selfId = s.topNode ∨ selfId = s.topRelation))
    (hf : findEnt s selfId = some se)
    (hloop : isaTreeLoop (fun dst => isaTree s n dst) s se.rels selfId = some kids) :
    isaTree s (n + 1) selfId =
      some (TL.consL (TL.obj selfId)
        (TL.consL (TL.consL (TL.obj selfId) kids) TL.nilL)) := by
  rw [isaTree, if_neg htop, hf]
  dsimp only
  rw [hloop]
  dsimp only [tlLen]
  rw [if_pos (Nat.succ_pos _)]

lemma isaTree_ok {s : GState} :
    ∀ fuel selfId tr, isaTree s fuel selfId = some tr → tlOk tr = true := by
  intro fuel
  induction fuel with
  | zero => intro selfId tr h; cases h
  | succ n ih =>
    intro selfId tr h
    by_cases htop : selfId = s.topNode ∨ selfId = s.topRelation
    · rw [isaTree, if_pos htop] at h
      cases h
      rfl
    · rw [isaTree, if_neg htop] at h
      cases hf : findEnt s selfId with
      | none => rw [hf] at h; dsimp only at h; cases h
      | some se =>
        rw [hf] at h
        dsimp only at h
        cases hloop : isaTreeLoop (fun dst => isaTree s n dst) s se.rels selfId with
        | none => rw [hloop] at h; dsimp only at h; cases h
        | some kids =>
          have heq := isaTree_succ_eq htop hf hloop
          rw [isaTree, if_neg htop, hf] at heq
          dsimp only at heq
          rw [heq] at h
          cases h
          have hkids : tlOk kids = true :=
            isaTreeLoop_ok (fun dst tr h1 => ih dst tr h1) _ _ hloop
          simp [tlOk, hkids]

lemma isaTree_shape {s : GState} {fuel selfId : Nat} {tr : TL}
    (h : isaTree s fuel selfId = some tr) :
    ∃ t2, tr = TL.consL (TL.obj selfId) t2 := by
  cases fuel with
  | zero => cases h
  | succ n =>
    by_cases htop : selfId = s.topNode ∨ selfId = s.topRelation
    · rw [isaTree, if_pos htop] at h
      cases h
      exact ⟨_, rfl⟩
    · rw [isaTree, if_neg htop] at h
      cases hf : findEnt s selfId with
      | none => rw [hf] at h; dsimp only at h; cases h
      | some se =>
        rw [hf] at h
        dsimp only at h
        cases hloop : isaTreeLoop (fun dst => isaTree s n dst) s se.rels selfId with
        | none => rw [hloop] at h; dsimp only at h; cases h
        | some kids =>
          have heq := isaTree_succ_eq htop hf hloop
          rw [isaTree, if_neg htop, hf] at heq
          dsimp only at heq
          rw [heq] at h
          cases h
          exact ⟨_, rfl⟩

lemma isaLoop_true_mem {s : GState} {next : Nat → QRes} {nextT : Nat → Option TL}
    {selfId typeId : Nat}
    (hcomp : ∀ dst tr', next dst = QRes.ret true → nextT dst = some tr' →
      typeId ∈ tlObjs tr')
    (hok : ∀ dst tr', nextT dst = some tr' → tlOk tr' = true) :
    ∀ rids kids, isaLoop next s rids selfId = QRes.ret true →
      isaTreeLoop nextT s rids selfId = some kids → typeId ∈ tlObjs kids := by
  intro rids
  induction rids with
  | nil => intro kids hB _; cases hB
  | cons rid rest ih =>
    intro kids hB hT
    rw [isaLoop] at hB
    rw [isaTreeLoop] at hT
    cases hf : findEnt s rid with
    | none => rw [hf] at hB; dsimp only at hB; cases hB
    | some r =>
      rw [hf] at hB hT
      dsimp only at hB hT
      by_cases hg : r.isIsa ∧ r.src = selfId
      · rw [if_pos hg] at hB hT
        cases ht1 : nextT r.dst with
        | none => rw [ht1] at hT; dsimp only at hT; cases hT
        | some k1 =>
          cases ht2 : isaTreeLoop nextT s rest selfId with
          | none => rw [ht1, ht2] at hT; dsimp only at hT; cases hT
          | some more =>
            rw [ht1, ht2] at hT
            dsimp only at hT
            cases hT
            cases hnx : next r.dst with
            | out => rw [hnx] at hB; dsimp only at hB; cases hB
            | fail => rw [hnx] at hB; dsimp only at hB; cases hB
            | ret b =>
              cases b with
              | true =>
                exact tlObjs_append_left (hok _ _ ht1) (hcomp _ _ hnx ht1)
              | false =>
                rw [hnx] at hB
                dsimp only at hB
                exact tlObjs_append_right (ih _ hB ht2)
      · rw [if_neg hg] at hB hT
        exact ih _ hB hT

/-- If `self.isa(nodeType)` returns `True`, then `nodeType` occurs among the
objects of the tree list returned by `self.isa()` at the same recursion
budget: the boolean walk and the tree walk visit the same isa edges. -/
lemma isaB_true_mem_tree {s : GState} :
    ∀ fuel selfId typeId tr, isaB s fuel selfId typeId = QRes.ret true →
      isaTree s fuel selfId = some tr → typeId ∈ tlObjs tr := by
  intro fuel
  induction fuel with
  | zero => intro selfId typeId tr hB _; cases hB
  | succ n ih =>
    intro selfId typeId tr hB hT
    rw [isaB] at hB
    cases h1 : findEnt s selfId with
    | none =>
      rw [h1] at hB
      cases h2 : findEnt s typeId <;> rw [h2] at hB <;> dsimp only at hB <;> cases hB
    | some se =>
      cases h2 : findEnt s typeId with
      | none => rw [h1, h2] at hB; dsimp only at hB; cases hB
      | some te =>
        rw [h1, h2] at hB
        dsimp only at hB
        by_cases hcls : se.cls ≠ te.cls
        · rw [if_pos hcls] at hB; cases hB
        · rw [if_neg hcls] at hB
          by_cases heq : typeId = selfId
          · subst heq
            by_cases htop : typeId = s.topNode ∨ typeId = s.topRelation
            · rw [isaTree, if_pos htop] at hT
              cases hT
              simp [tlObjs]
            · rw [isaTree, if_neg htop, h1] at hT
              dsimp only at hT
              cases hloop : isaTreeLoop (fun dst => isaTree s n dst) s se.rels typeId with
              | none => rw [hloop] at hT; dsimp only at hT; cases hT
              | some kids =>
                have he := isaTree_succ_eq htop h1 hloop
                rw [isaTree, if_neg htop, h1] at he
                dsimp only at he
                rw [he] at hT
                cases hT
                simp [tlObjs]
          · rw [if_neg heq] at hB
            by_cases htop : selfId = s.topNode ∨ selfId = s.topRelation
            · rw [if_pos htop] at hB; cases hB
            · rw [if_neg htop] at hB
              rw [isaTree, if_neg htop, h1] at hT
              dsimp only at hT
              cases hloop : isaTreeLoop (fun dst => isaTree s n dst) s se.rels selfId with
              | none => rw [hloop] at hT; dsimp only at hT; cases hT
              | some kids =>
                have he := isaTree_succ_eq htop h1 hloop
                rw [isaTree, if_neg htop, h1] at he
                dsimp only at he
                rw [he] at hT
                cases hT
                have hmem : typeId ∈ tlObjs kids :=
                  isaLoop_true_mem
                    (fun dst tr' hb htr => ih dst typeId tr' hb htr)
                    (fun dst tr' htr => isaTree_ok n dst tr' htr)
                    se.rels kids hB hloop
                simp [tlObjs, hmem]

lemma isaB_ret_lookups {s : GState} {fuel a b : Nat} {v : Bool}
    (h : isaB s fuel a b = QRes.ret v) :
    ∃ ea eb, findEnt s a = some ea ∧ findEnt s b = some eb := by
  cases fuel with
  | zero => cases h
  | succ n =>
    rw [isaB] at h
    cases h1 : findEnt s a with
    | none =>
      rw [h1] at h
      cases h2 : findEnt s b <;> rw [h2] at h <;> dsimp only at h <;> cases h
    | some ea =>
      cases h2 : findEnt s b with
      | none => rw [h1, h2] at h; dsimp only at h; cases h
      | some eb => exact ⟨ea, eb, rfl, rfl⟩

lemma isaValidateReferents_flags_cycle {s : GState} {fuel e t : Nat}
    (hcyc : isaB s fuel t e = QRes.ret true) (hne : t ≠ e)
    (hTe : (isaTree s fuel e).isSome = true)
    (hTt : (isaTree s fuel t).isSome = true) :
    ∃ n, isaValidateReferentsFresh s fuel e t = some n ∧ 1 ≤ n := by
  obtain ⟨et2, ee2, hft, hfe⟩ := isaB_ret_lookups hcyc
  obtain ⟨ftree, hfe3⟩ := Option.isSome_iff_exists.mp hTe
  obtain ⟨ttree, hft3⟩ := Option.isSome_iff_exists.mp hTt
  have hmem : e ∈ tlObjs ttree := isaB_true_mem_tree fuel t e ttree hcyc hft3
  obtain ⟨t2, rfl⟩ := isaTree_shape hft3
  have hok : tlOk (TL.consL (TL.obj t) t2) = true := isaTree_ok fuel t _ hft3
  have hcov : e ∈ tfAux [] (TL.consL (TL.obj t) t2) [] := by
    rcases tfAux_covers [] _ [] hok hmem with h | h
    · exact h
    · cases h
  have hstep : tfAux ([] : List Nat) (TL.consL (TL.obj t) t2) [] =
      tfAux [] t2 [t] := by
    have h0 : tfAux ([] : List Nat) (TL.consL (TL.obj t) t2) [] =
        tfAux [] t2
          (if t ∈ ([] : List Nat) ∨ t ∈ ([] : List Nat) then [] else [] ++ [t]) :=
      rfl
    rw [h0, if_neg (by simp)]
    rfl
  obtain ⟨extra, hpre⟩ := tfAux_prefix [] t2 [t]
  rw [hstep, hpre] at hcov
  have hdrop : e ∈ (treeFlatten (TL.consL (TL.obj t) t2) []).drop 1 := by
    show e ∈ (tfAux [] (TL.consL (TL.obj t) t2) []).drop 1
    rw [hstep, hpre]
    have hex : e ∈ extra := by
      rcases List.mem_append.mp hcov with h | h
      · exact absurd (List.mem_singleton.mp h) (fun hh => hne hh.symm)
      · exact h
    simpa using hex
  unfold isaValidateReferentsFresh
  rw [hfe, hft]
  dsimp only
  by_cases hkind :
      ¬((ee2.isRel = false ∧ et2.isRel = false) ∨
        (ee2.isRel = true ∧ et2.isRel = true))
  · rw [if_pos hkind]
    exact ⟨1, rfl, le_refl 1⟩
  · rw [if_neg hkind, hfe3, hft3]
    dsimp only
    refine ⟨_, rfl, ?_⟩
    simp only [if_pos hdrop]
    exact Nat.le_add_left 1 _

lemma filterMap_ext {α β : Type} {f g : α → Option β} :
    ∀ l : List α, (∀ a ∈ l, f a = g a) → l.filterMap f = l.filterMap g := by
  intro l h
  induction l with
  | nil => rfl
  | cons a tl ih =>
    have ha := h a (by simp)
    have ht := ih (fun b hb => h b (by simp [hb]))
    simp [List.filterMap_cons, ha, ht]

lemma isaPairsOf_ext {s1 s2 : GState} {e : Ent}
    (h : ∀ rid ∈ e.rels, findEnt s2 rid = findEnt s1 rid) :
    isaPairsOf s2 e = isaPairsOf s1 e := by
  unfold isaPairsOf
  refine filterMap_ext _ (fun rid hr => ?_)
  rw [h rid hr]

lemma attachedIsaPairs_congr_aux (s1 s2 : GState) :
    ∀ l : List Ent, (∀ e ∈ l, isaPairsOf s2 e = isaPairsOf s1 e) →
      l.foldr (fun e acc => isaPairsOf s2 e ++ acc) [] =
      l.foldr (fun e acc => isaPairsOf s1 e ++ acc) [] := by
  intro l h
  induction l with
  | nil => rfl
  | cons a tl ih =>
    simp only [List.foldr_cons]
    rw [h a (by simp), ih (fun e he => h e (by simp [he]))]

lemma findEnt_constructIsa_preserved {s : GState} {newId frm toN x : Nat}
    {ex : Ent} (hx : findEnt s x = some ex) :
    findEnt (constructIsa s newId frm toN).state x = some ex := by
  show (s.ents ++
    [({ eid := newId, cls := ECls.isa, isIsa := true, src := frm, dst := toN,
        props := [], rels := [], deleted := false } : Ent)]).find?
    (fun en => en.eid = x) = some ex
  exact find?_append_some hx

lemma attachedIsaPairs_constructIsa (s : GState) (newId frm toN : Nat)
    (hwf : WFGraph s) :
    attachedIsaPairs (constructIsa s newId frm toN).state =
      attachedIsaPairs s := by
  obtain ⟨hnd, hcl⟩ := hwf
  have hents : (constructIsa s newId frm toN).state.ents =
      s.ents ++
      [{ eid := newId, cls := ECls.isa, isIsa := true, src := frm, dst := toN,
         props := [], rels := [], deleted := false }] := rfl
  unfold attachedIsaPairs
  rw [hents, List.foldr_append]
  have h2 : List.foldr
      (fun e acc => isaPairsOf (constructIsa s newId frm toN).state e ++ acc) []
      [{ eid := newId, cls := ECls.isa, isIsa := true, src := frm, dst := toN,
         props := [], rels := [], deleted := false }] = [] := rfl
  rw [h2]
  refine attachedIsaPairs_congr_aux s _ s.ents (fun en hen => ?_)
  refine isaPairsOf_ext (fun rid hrid => ?_)
  obtain ⟨r, hr, hre, _, _, _⟩ := hcl en hen rid hrid
  have hfind : findEnt s rid = some r := find?_eid_unique hnd hr hre
  rw [hfind]
  exact findEnt_constructIsa_preserved hfind

/-- C1: in a well-formed model, constructing an Isa edge from `e` to `t`
when `e` is already a transitive isa-ancestor of `t` (`t.isa(e)` returns
`True` and `t ≠ e`, with the two isa-tree walks completing within the same
fuel) fails with an error and attaches nothing: `Isa.validateReferents`
would flag the circularity (error count ≥ 1), the construction raises, every
pre-existing entity record — in particular both endpoints' relation lists —
is unchanged, and the set of attached isa edges (the isa graph `MObject.isa`
traverses) is exactly what it was before, so no cycle is ever wired in. -/
theorem C1_cyclic_isa_rejected (s : GState) (fuel newId e t : Nat)
    (hwf : WFGraph s)
    (hcyc : isaB s fuel t e = QRes.ret true) (hne : t ≠ e)
    (hTe : (isaTree s fuel e).isSome = true)
    (hTt : (isaTree s fuel t).isSome = true) :
    (∃ n, isaValidateReferentsFresh s fuel e t = some n ∧ 1 ≤ n) ∧
    (constructIsa s newId e t).err.isSome = true ∧
    (∀ x ex, findEnt s x = some ex →
      findEnt (constructIsa s newId e t).state x = some ex) ∧
    attachedIsaPairs (constructIsa s newId e t).state = attachedIsaPairs s := by
  refine ⟨isaValidateReferents_flags_cycle hcyc hne hTe hTt, rfl, ?_, ?_⟩
  · intro x ex hx
    exact findEnt_constructIsa_preserved hx
  · exact attachedIsaPairs_constructIsa s newId e t hwf

/-- Witness for C1 on `w1State`: `1.isa(0)` holds through the isa edge `2`,
and the attempted construction `Isa(frm=0, to=1)` is flagged and rejected
with every entity record and the attached isa graph unchanged. -/
theorem C1_witness :
    (∃ n, isaValidateReferentsFresh w1State 3 0 1 = some n ∧ 1 ≤ n) ∧
    (constructIsa w1State 9 0 1).err.isSome = true ∧
    (∀ x ex, findEnt w1State x = some ex →
      findEnt (constructIsa w1State 9 0 1).state x = some ex) ∧
    attachedIsaPairs (constructIsa w1State 9 0 1).state =
      attachedIsaPairs w1State := by
  refine C1_cyclic_isa_rejected w1State 3 9 0 1 ?_ ?_ ?_ ?_ ?_
  · exact ⟨by decide, by decide⟩
  · decide
  · decide
  · decide
  · decide

/-- C2 (code bug): on `w2State` — nodes `A = 0`, `B = 1`, `C = 2`, isa edges
`3 : B → C` and `4 : A → C` — `C` is a transitive isa-ancestor of `B`
(first conjunct), so per the spec constructing `Isa(frm=A, to=B)` should be
accepted and should delete the now-redundant edge `4 : A → C`
(`Isa._post__init__`, mrelations.py:298-308).  Instead the construction
raises (`MRelation.validate` calls the nonexistent `super().validate()`,
mrelations.py:80) before `Isa._post__init__`'s deletion loop can run: the
error is raised, `A`'s relation list still holds edge `4`, edge `4` itself
is untouched, and the pair `(A, C)` is still wired into the isa graph. -/
theorem C2_redundant_edge_survives :
    isaB w2State 3 1 2 = QRes.ret true ∧
    (constructIsa w2State 9 0 1).err.isSome = true ∧
    (findEnt (constructIsa w2State 9 0 1).state 0).map Ent.rels = some [4] ∧
    findEnt (constructIsa w2State 9 0 1).state 4 = some
      { eid := 4, cls := ECls.isa, isIsa := true, src := 0, dst := 2,
        props := [], rels := [], deleted := false } ∧
    (0, 2) ∈ attachedIsaPairs (constructIsa w2State 9 0 1).state := by
  decide

/-- C3 (code bug): on `w3State`, node `0` is live (not mid-deletion) and its
only outgoing isa edge is `2` (first two conjuncts), so per the spec
removing edge `2` should auto-create a replacement Isa edge from `0` to
`topNode`.  `MObject.notifyRelationDeletion` (mobjects.py:349-369) does
reach the replacement `Isa(...)` construction, but that constructor raises
(`MRelation.validate` calls the nonexistent `super().validate()`,
mrelations.py:80) before `addRelation` attaches anything: the exception
propagates out of `notifyRelationDeletion`, and afterwards node `0`'s
relation list is empty — the live non-root entity is left with no outgoing
isa edge, violating the claimed invariant. -/
theorem C3_no_replacement_isa_edge :
    outgoingIsa w3State 0 = [2] ∧
    (findEnt w3State 0).map Ent.deleted = some false ∧
    (notifyRelationDeletion w3State 0 2 9).2.isSome = true ∧
    (findEnt (notifyRelationDeletion w3State 0 2 9).1 0).map Ent.rels =
      some [] ∧
    outgoingIsa (notifyRelationDeletion w3State 0 2 9).1 0 = [] := by
  decide

lemma find?_append_left_none {α : Type} (l1 l2 : List α) (p : α → Bool)
    (h : l1.find? p = none) : (l1 ++ l2).find? p = l2.find? p := by
  induction l1 with
  | nil => rfl
  | cons a t ih =>
    by_cases ha : p a
    · rw [List.find?_cons_of_pos _ ha] at h; cases h
    · rw [List.find?_cons_of_neg _ ha] at h
      rw [List.cons_append, List.find?_cons_of_neg _ ha]
      exact ih h

lemma find?_map_replace (l : List (String × Item)) (k : String) (it : Item) :
    (l.find? (fun p => p.1 = k)).isSome = true →
    (l.map (fun p => if p.1 = k then (k, it) else p)).find?
      (fun p => p.1 = k) = some (k, it) := by
  induction l with
  | nil => intro h; simp at h
  | cons hd t ih =>
    intro h
    by_cases hh : hd.1 = k
    · rw [List.map_cons, if_pos hh]
      exact List.find?_cons_of_pos _ (by simp)
    · rw [List.map_cons, if_neg hh]
      rw [List.find?_cons_of_neg _ (by simpa using hh)]
      apply ih
      rw [List.find?_cons_of_neg _ (by simpa using hh)] at h
      exact h

lemma getLocal_setLocal (l : List (String × Item)) (k : String) (it : Item) :
    getLocal (setLocal l k it) k = some it := by
  unfold getLocal setLocal
  by_cases h : (l.find? (fun p => p.1 = k)).isSome
  · rw [if_pos h, find?_map_replace l k it h]
    rfl
  · rw [if_neg h]
    have h0 : l.find? (fun p => p.1 = k) = none := by
      cases hf : l.find? (fun p => p.1 = k) with
      | none => rfl
      | some x => rw [hf] at h; simp at h
    rw [find?_append_left_none _ _ _ h0]
    rw [List.find?_cons_of_pos _ (by simp)]
    rfl

lemma parentLoop_cum_no_item
    (nextSelf : List (String × Item) → List Attributes → Attributes × GetRes)
    (nextP : Attributes → Attributes × GetRes) (key : String)
    (attrs : List (String × Item)) (it0 : Item)
    (hloc : getLocal attrs key = some it0) :
    ∀ (rest done : List Attributes) (cumVal : List PBase) (b : Bool)
      (rec : Item),
      (parentLoop nextSelf nextP key attrs done rest cumVal
        (some (b, rec))).2 = GetRes.noneR ∨
      ∃ m, (parentLoop nextSelf nextP key attrs done rest cumVal
        (some (b, rec))).2 = GetRes.err m := by
  intro rest
  induction rest with
  | nil =>
    intro done cumVal b rec
    dsimp only [parentLoop]
    by_cases hk : rec.kind = AKind.setK
    · rw [if_pos hk]
      cases b
      · exact Or.inr ⟨_, rfl⟩
      · exact Or.inl rfl
    · rw [if_neg hk]
      exact Or.inr ⟨_, rfl⟩
  | cons p rest ih =>
    intro done cumVal b rec
    dsimp only [parentLoop]
    rcases hnp : nextP p with ⟨p2, res⟩
    cases res with
    | err m => exact Or.inr ⟨m, rfl⟩
    | noneR => exact ih (done ++ [p2]) cumVal b rec
    | item v =>
      dsimp only
      have hm : ¬(v.default ≠ PVal.prim PBase.noneB ∧
          (getLocal attrs key).isNone = true) := by
        rw [hloc]; simp
      rw [if_neg hm]
      rw [if_neg (fun hc => by simp at hc)]
      exact ih (done ++ [p2]) (cumVal ++ explode v.value) b rec

lemma getA_setkind_local (fuel : Nat) (attrs : List (String × Item))
    (parents : List Attributes) (k : String) (it : Item)
    (hl : getLocal attrs k = some it) (hk : it.kind = AKind.setK) :
    (getA (fuel+1) (.mk attrs parents) k true).2 = GetRes.noneR ∨
    ∃ m, (getA (fuel+1) (.mk attrs parents) k true).2 = GetRes.err m := by
  dsimp only [getA]
  rw [hl]
  dsimp only
  rw [if_pos hk]
  exact parentLoop_cum_no_item _ _ k attrs it hl parents []
    (explode it.value) true it

lemma getA_local_hit (fuel : Nat) (attrs : List (String × Item))
    (parents : List Attributes) (k : String) (it : Item)
    (hl : getLocal attrs k = some it) (hk : it.kind ≠ AKind.setK) :
    getA (fuel+1) (.mk attrs parents) k true = (.mk attrs parents, .item it) := by
  dsimp only [getA]
  rw [hl]
  dsimp only
  rw [if_neg hk]

lemma getA_single_parent (fuel : Nat) (cA pA : List (String × Item))
    (k : String) (it : Item) (incLoc : Bool) (hl : getLocal cA k = none)
    (hp : getLocal pA k = some it) (hk : it.kind ≠ AKind.setK)
    (hd : it.default = PVal.prim PBase.noneB) :
    getA (fuel+2) (.mk cA [.mk pA []]) k incLoc =
      (.mk cA [.mk pA []], .item it) := by
  have hleaf : getA (fuel+1) (.mk pA []) k true = (.mk pA [], .item it) :=
    getA_local_hit fuel pA [] k it hp hk
  have hloop : parentLoop
      (fun a2 ps => getA (fuel+1) (.mk a2 ps) k incLoc)
      (fun p => getA (fuel+1) p k true) k cA [] [.mk pA []] [] none =
      (.mk cA [.mk pA []], .item it) := by
    dsimp only [parentLoop]
    rw [hleaf]
    dsimp only
    rw [if_neg (fun hc => hc.1 hd)]
    rw [if_neg (fun hc => hk hc.1)]
    rfl
  cases incLoc with
  | false =>
    dsimp only [getA]
    exact hloop
  | true =>
    dsimp only [getA]
    rw [hl]
    dsimp only
    exact hloop

lemma inferKind_not_choices (k : String) (v : PVal)
    (hnl : ∀ l, v ≠ PVal.listV l) : inferKind k v ≠ AKind.choices := by
  cases v with
  | prim p =>
    cases p with
    | strB s =>
      dsimp only [inferKind]
      by_cases h1 : (strHas k.toLower "color" || strHas k.toLower "colour") = true
      · rw [if_pos h1]; decide
      · rw [if_neg h1]
        by_cases h2 : s.toList.contains '\n' = true
        · rw [if_pos h2]; decide
        · rw [if_neg h2]; decide
    | intB n => exact fun h => nomatch h
    | boolB b => exact fun h => nomatch h
    | noneB => exact fun h => nomatch h
  | setV l => exact fun h => nomatch h
  | listV l => exact absurd rfl (hnl l)

lemma inferKind_not_set (k : String) (v : PVal)
    (hns : ∀ l, v ≠ PVal.setV l) : inferKind k v ≠ AKind.setK := by
  cases v with
  | prim p =>
    cases p with
    | strB s =>
      dsimp only [inferKind]
      by_cases h1 : (strHas k.toLower "color" || strHas k.toLower "colour") = true
      · rw [if_pos h1]; decide
      · rw [if_neg h1]
        by_cases h2 : s.toList.contains '\n' = true
        · rw [if_pos h2]; decide
        · rw [if_neg h2]; decide
    | intB n => exact fun h => nomatch h
    | boolB b => exact fun h => nomatch h
    | noneB => exact fun h => nomatch h
  | setV l => exact absurd rfl (hns l)
  | listV l => exact fun h => nomatch h

lemma mkItem_infer (k : String) (v : PVal) (fin ed : Bool) (dflt : PVal)
    (hnl : ∀ l, v ≠ PVal.listV l) :
    mkItem k v fin ed none dflt none =
      Except.ok { key := k, value := v, final := fin, editable := ed,
                  default := dflt, validator := none, system := false,
                  kind := inferKind k v } := by
  unfold mkItem
  dsimp only [Option.getD]
  rw [if_neg (fun hc => inferKind_not_choices k v hnl hc.1)]

/-- C6: contrary to the claim that `get` returns the union of the local and
ancestor `'set'`-kind values, whenever the local item for a key has kind
`'set'`, `Attributes._get` takes the cumulative path, writes the aggregate
into the local item as a side effect, and then falls off the end of the
function: `get` returns Python `None` (or propagates an exception), never
the union. -/
theorem C6_setkind_get_returns_none (fuel : Nat) (a : Attributes) (k : String)
    (it : Item) (hl : getLocal a.attrs k = some it)
    (hk : it.kind = AKind.setK) :
    (get (fuel+1) a k).2 = Except.ok (PVal.prim PBase.noneB) ∨
    ∃ m, (get (fuel+1) a k).2 = Except.error m := by
  cases a with
  | mk attrs parents =>
    dsimp only [Attributes.attrs] at hl
    have h := getA_setkind_local fuel attrs parents k it hl hk
    unfold get
    rcases hg : getA (fuel+1) (Attributes.mk attrs parents) k true with ⟨a2, res⟩
    rw [hg] at h
    cases res with
    | item it2 =>
      exfalso
      dsimp only at h
      rcases h with h | ⟨m, h⟩
      · cases h
      · cases h
    | noneR => exact Or.inl rfl
    | err m => exact Or.inr ⟨m, rfl⟩

/-- Witness for C6 on `c6Store`: the `'set'`-kind key `tags` yields `None`
from `get`. -/
theorem C6_witness :
    (get 4 c6Store "tags").2 = Except.ok (PVal.prim PBase.noneB) ∨
    ∃ m, (get 4 c6Store "tags").2 = Except.error m :=
  C6_setkind_get_returns_none 3 c6Store "tags"
    (baseItem "tags" (.setV [.intB 1]) .setK) rfl rfl

/-- Counterexample for C6 as stated: on `c6Store` (local `tags = {1}`,
parent `tags = {2}`), `get` returns `None` rather than the union `{1, 2}`;
the side-effect union written into the local item is `{1}` alone, because
the parent's own `'set'`-kind `_get` also returns `None` and so contributes
nothing. -/
theorem C6_counterexample :
    (get 5 c6Store "tags").2 = Except.ok (PVal.prim PBase.noneB) ∧
    (getLocal (get 5 c6Store "tags").1.attrs "tags").map Item.value =
      some (PVal.setV [PBase.intB 1]) ∧
    (getLocal c6Parent.attrs "tags").map Item.value =
      some (PVal.setV [PBase.intB 2]) :=
  ⟨rfl, rfl, rfl⟩

/-- C7: over a store whose single ancestor marks `k` final with **no
declared default** (and a non-`'set'` kind), the claim holds: `add` fails
with the final-override error and leaves the store unchanged, `config`
fails (with `KeyError`, since no local item exists), and `get` still
returns the ancestor's value with no local item materialized.  (The
counterexample shows the claim fails when the final ancestor item declares
a default.) -/
theorem C7_final_ancestor_rejected (fuel : Nat) (cA pA : List (String × Item))
    (k : String) (it : Item) (v : PVal) (fin ed sup sys : Bool)
    (kd : Option AKind) (vld : Option AValidator) (dflt : PVal)
    (hl : getLocal cA k = none) (hp : getLocal pA k = some it)
    (hf : it.final = true) (hd : it.default = PVal.prim PBase.noneB)
    (hk : it.kind ≠ AKind.setK) :
    add (fuel+2) (.mk cA [.mk pA []]) k v fin ed kd sup sys vld dflt =
      (.mk cA [.mk pA []], [],
       some "AttributeError: cannot override attribute") ∧
    config (fuel+2) (.mk cA [.mk pA []]) k v none none kd dflt none vld sup =
      (.mk cA [.mk pA []], [], some "KeyError: key not found") ∧
    get (fuel+2) (.mk cA [.mk pA []]) k =
      (.mk cA [.mk pA []], Except.ok it.value) := by
  have hspF := getA_single_parent fuel cA pA k it false hl hp hk hd
  have hspT := getA_single_parent fuel cA pA k it true hl hp hk hd
  refine ⟨?_, ?_, ?_⟩
  · unfold add
    rw [hspF]
    dsimp only
    rw [if_pos hf]
  · unfold config
    rw [if_pos (show (getLocal (Attributes.mk cA
        [Attributes.mk pA []]).attrs k).isNone = true by
      dsimp only [Attributes.attrs]; rw [hl]; rfl)]
  · unfold get
    rw [hspT]

/-- Witness for C7: a final, default-free ancestor item `z` is protected:
`add` and `config` fail, the store is unchanged, and `get` returns the
ancestor's value. -/
theorem C7_witness :
    add 3 (.mk [] [.mk [("z", c7wItem)] []]) "z" (PVal.prim (PBase.intB 1))
        false true none false false none (PVal.prim PBase.noneB) =
      (.mk [] [.mk [("z", c7wItem)] []], [],
       some "AttributeError: cannot override attribute") ∧
    config 3 (.mk [] [.mk [("z", c7wItem)] []]) "z" (PVal.prim (PBase.intB 1))
        none none none (PVal.prim PBase.noneB) none none false =
      (.mk [] [.mk [("z", c7wItem)] []], [], some "KeyError: key not found") ∧
    get 3 (.mk [] [.mk [("z", c7wItem)] []]) "z" =
      (.mk [] [.mk [("z", c7wItem)] []],
       Except.ok (PVal.prim (PBase.strB "pv"))) :=
  C7_final_ancestor_rejected 1 [] [("z", c7wItem)] "z" c7wItem
    (PVal.prim (PBase.intB 1)) false true false false none none
    (PVal.prim PBase.noneB) rfl rfl rfl rfl (by decide)

/-- Counterexample for C7 as stated: on `c7Child` (parent item `x` final
with value `5` and default `7`), `add` does raise — but its `_get`
pre-check first **materializes a local item from the ancestor's default**,
so afterwards a local override exists and `get` returns the default `7`,
not the ancestor's value `5`. -/
theorem C7_counterexample :
    (add 9 c7Child "x" (PVal.prim (PBase.intB 9)) false true none false false
        none (PVal.prim PBase.noneB)).2.2 =
      some "AttributeError: cannot override attribute" ∧
    (getLocal c7Parent.attrs "x").map Item.value =
      some (PVal.prim (PBase.intB 5)) ∧
    (getLocal (add 9 c7Child "x" (PVal.prim (PBase.intB 9)) false true none
        false false none (PVal.prim PBase.noneB)).1.attrs "x").map Item.value =
      some (PVal.prim (PBase.intB 7)) ∧
    (get 9 (add 9 c7Child "x" (PVal.prim (PBase.intB 9)) false true none false
        false none (PVal.prim PBase.noneB)).1 "x").2 =
      Except.ok (PVal.prim (PBase.intB 7)) :=
  ⟨rfl, rfl, rfl, rfl⟩

/-- C8: on a parentless store whose local item for `k` is editable,
`config(k, v, validator=f)` with `v ≠ None` first installs `f` on the item
and then validates: if `f` rejects, the call returns the rejection, no
notification fires, and the stored value is unchanged — but the installed
validator persists (the item equals `old` with `validator := f`); if `f`
accepts with result `w`, the committed value is `w` (the validator's
output, not the raw `v`), and observers are notified with the raw `(k, v)`
exactly when the **raw** `v` differs from the old value — regardless of
whether the committed `w` does. -/
theorem C8_validator_gates_commit (fuel : Nat) (at_ : List (String × Item))
    (k : String) (old : Item) (v : PVal) (f : AValidator)
    (hl : getLocal at_ k = some old) (hed : old.editable = true)
    (hv : v ≠ PVal.prim PBase.noneB) :
    (∀ m, applyValidator f v = Except.error m →
      config (fuel+1) (.mk at_ []) k v none none none (PVal.prim PBase.noneB)
          none (some f) false =
        (.mk (setLocal at_ k { old with validator := some f }) [], [],
         some m)) ∧
    (∀ w, applyValidator f v = Except.ok w →
      config (fuel+1) (.mk at_ []) k v none none none (PVal.prim PBase.noneB)
          none (some f) false =
        (.mk (setLocal at_ k { old with value := w, validator := some f }) [],
         if old.value = v then [] else [(k, v)], none)) := by
  have hnn : ¬((getLocal (Attributes.mk at_ []).attrs k).isNone = true) := by
    dsimp only [Attributes.attrs]; rw [hl]; simp
  have hne : ¬(old.editable = false ∧ v ≠ PVal.prim PBase.noneB ∧
      v ≠ old.value) := by
    intro hc
    rw [hed] at hc
    exact absurd hc.1 (by decide)
  have hga : getA (fuel+1) (Attributes.mk at_ []) k false =
      (Attributes.mk at_ [], GetRes.noneR) := rfl
  constructor
  · intro m hm
    unfold config
    rw [if_neg hnn, hga]
    unfold configBody
    dsimp only [Attributes.attrs]
    rw [hl]
    try dsimp only
    rw [if_neg hne]
    try dsimp only
    rw [if_pos hv]
    try dsimp only
    rw [hm]
    rfl
  · intro w hw
    unfold config
    rw [if_neg hnn, hga]
    unfold configBody
    dsimp only [Attributes.attrs]
    rw [hl]
    try dsimp only
    rw [if_neg hne]
    try dsimp only
    rw [if_pos hv]
    try dsimp only
    rw [hw]
    dsimp only [Except.map, Option.getD]
    by_cases hov : old.value = v
    · rw [if_neg (fun hc => hc.2.1 hov), if_pos hov,
        if_neg (fun hc => hc rfl)]
      rfl
    · rw [if_pos ⟨hv, hov, rfl⟩, if_neg hov, if_neg (fun hc => hc rfl)]
      rfl

/-- Witness for C8 on a one-item store: the normalising validator is
installed and gates the commit; the accepted branch commits `f(v) = 5` and
notifies with the raw `6`. -/
theorem C8_witness :
    (∀ m, applyValidator c8Normalizer (PVal.prim (PBase.intB 6)) =
        Except.error m →
      config 3 (.mk [("n", baseItem "n" (.prim (.intB 5)) .intK)] []) "n"
          (PVal.prim (PBase.intB 6)) none none none (PVal.prim PBase.noneB)
          none (some c8Normalizer) false =
        (.mk (setLocal [("n", baseItem "n" (.prim (.intB 5)) .intK)] "n"
          { baseItem "n" (.prim (.intB 5)) .intK with
            validator := some c8Normalizer }) [], [], some m)) ∧
    (∀ w, applyValidator c8Normalizer (PVal.prim (PBase.intB 6)) =
        Except.ok w →
      config 3 (.mk [("n", baseItem "n" (.prim (.intB 5)) .intK)] []) "n"
          (PVal.prim (PBase.intB 6)) none none none (PVal.prim PBase.noneB)
          none (some c8Normalizer) false =
        (.mk (setLocal [("n", baseItem "n" (.prim (.intB 5)) .intK)] "n"
          { baseItem "n" (.prim (.intB 5)) .intK with
            value := w, validator := some c8Normalizer }) [],
         if (baseItem "n" (.prim (.intB 5)) .intK).value =
             PVal.prim (PBase.intB 6) then []
         else [("n", PVal.prim (PBase.intB 6))], none)) :=
  C8_validator_gates_commit 2 [("n", baseItem "n" (.prim (.intB 5)) .intK)]
    "n" (baseItem "n" (.prim (.intB 5)) .intK) (PVal.prim (PBase.intB 6))
    c8Normalizer rfl rfl (by decide)

/-- Counterexample for C8 as stated: on `c8Store` (`n = 5`), a normalising
validator maps the proposed `6` back to `5` — the committed value does
**not** differ from the old value, yet observers are notified, and with the
raw proposed `6` rather than the committed value.  And a rejected
`config(n, 6, validator=rejecter)` does not leave the observable state
unchanged: the rejecting validator stays installed, so a later plain
`config(n, 7)` now fails even though the same call succeeds on the
untouched store. -/
theorem C8_counterexample :
    (config 5 c8Store "n" (PVal.prim (PBase.intB 6)) none none none
        (PVal.prim PBase.noneB) none (some c8Normalizer) false).2.2 = none ∧
    (getLocal (config 5 c8Store "n" (PVal.prim (PBase.intB 6)) none none none
        (PVal.prim PBase.noneB) none (some c8Normalizer) false).1.attrs
        "n").map Item.value = some (PVal.prim (PBase.intB 5)) ∧
    (config 5 c8Store "n" (PVal.prim (PBase.intB 6)) none none none
        (PVal.prim PBase.noneB) none (some c8Normalizer) false).2.1 =
      [("n", PVal.prim (PBase.intB 6))] ∧
    (config 5 c8Store "n" (PVal.prim (PBase.intB 6)) none none none
        (PVal.prim PBase.noneB) none (some c8Rejecter) false).2.2 =
      some "ValueError: rejected" ∧
    (config 5 (config 5 c8Store "n" (PVal.prim (PBase.intB 6)) none none none
        (PVal.prim PBase.noneB) none (some c8Rejecter) false).1 "n"
        (PVal.prim (PBase.intB 7)) none none none (PVal.prim PBase.noneB) none
        none false).2.2 = some "ValueError: rejected" ∧
    (config 5 c8Store "n" (PVal.prim (PBase.intB 7)) none none none
        (PVal.prim PBase.noneB) none none false).2.2 = none :=
  ⟨rfl, rfl, rfl, rfl, rfl, rfl⟩

/-- C9: contrary to the claim, `config` never materializes a local item:
whenever the key has no local item, `config` raises `KeyError` immediately
(before any `_get` that could materialize one) and leaves the store, the
notifications, everything untouched. -/
theorem C9_config_requires_local_item (fuel : Nat) (a : Attributes)
    (k : String) (v : PVal) (fin ed : Option Bool) (kd : Option AKind)
    (dflt : PVal) (sys : Option Bool) (vld : Option AValidator) (sup : Bool)
    (h : getLocal a.attrs k = none) :
    config fuel a k v fin ed kd dflt sys vld sup =
      (a, [], some "KeyError: key not found") := by
  unfold config
  rw [if_pos (show (getLocal a.attrs k).isNone = true by rw [h]; rfl)]

/-- Witness for C9 on `c9Store`: `y` is visible through the ancestor (with
a default), yet `config` raises `KeyError` and changes nothing. -/
theorem C9_witness :
    config 5 c9Store "y" (PVal.prim (PBase.intB 4)) none none none
        (PVal.prim PBase.noneB) none none false =
      (c9Store, [], some "KeyError: key not found") :=
  C9_config_requires_local_item 5 c9Store "y" (PVal.prim (PBase.intB 4)) none
    none none (PVal.prim PBase.noneB) none none false rfl

/-- Counterexample for C9 as stated: on `c9Store`, `y` has no local item
but is visible through the ancestor with a declared default (`get` finds
value `3`), yet `config(y, 4)` raises `KeyError` instead of materializing
and mutating a local item — afterwards there is still no local `y`. -/
theorem C9_counterexample :
    getLocal c9Store.attrs "y" = none ∧
    (getLocal c9Parent.attrs "y").isSome = true ∧
    (get 5 c9Store "y").2 = Except.ok (PVal.prim (PBase.intB 3)) ∧
    (config 5 c9Store "y" (PVal.prim (PBase.intB 4)) none none none
        (PVal.prim PBase.noneB) none none false).2.2 =
      some "KeyError: key not found" ∧
    getLocal (config 5 c9Store "y" (PVal.prim (PBase.intB 4)) none none none
        (PVal.prim PBase.noneB) none none false).1.attrs "y" = none :=
  ⟨rfl, rfl, rfl, rfl, rfl⟩

/-- C10: for non-list, non-set values on a parentless store,
`add(k, v, validator=f)` stores `v` exactly as given without ever applying
`f`: the call succeeds with no notification, the local item holds `v` with
`f` merely installed, and `get(k)` returns `v` even when `f` would reject
it.  (List values are excluded because the `Item` constructor's `choices`
inference transforms them — the counterexample; set values are excluded
because `get` then returns `None` per C6.) -/
theorem C10_add_never_validates (fuel : Nat) (at_ : List (String × Item))
    (k : String) (v : PVal) (fin ed sup sys : Bool) (f : AValidator)
    (hnl : ∀ l, v ≠ PVal.listV l) (hns : ∀ l, v ≠ PVal.setV l) :
    (add (fuel+1) (.mk at_ []) k v fin ed none sup sys (some f)
        (PVal.prim PBase.noneB)).2.2 = none ∧
    (add (fuel+1) (.mk at_ []) k v fin ed none sup sys (some f)
        (PVal.prim PBase.noneB)).2.1 = [] ∧
    (getLocal (add (fuel+1) (.mk at_ []) k v fin ed none sup sys (some f)
        (PVal.prim PBase.noneB)).1.attrs k).map Item.value = some v ∧
    (get (fuel+1) (add (fuel+1) (.mk at_ []) k v fin ed none sup sys (some f)
        (PVal.prim PBase.noneB)).1 k).2 = Except.ok v := by
  have hitv := mkItem_infer k v false true (PVal.prim PBase.noneB) hnl
  have hkind : inferKind k v ≠ AKind.setK := inferKind_not_set k v hns
  have hadd : add (fuel+1) (Attributes.mk at_ []) k v fin ed none sup sys
      (some f) (PVal.prim PBase.noneB) =
      (Attributes.mk (setLocal (setLocal at_ k (c10Item0 k v)) k
        (c10Item1 k v fin ed sys f)) [], [], none) := by
    unfold add
    rw [show getA (fuel+1) (Attributes.mk at_ []) k false =
      (Attributes.mk at_ [], GetRes.noneR) from rfl]
    try dsimp only
    rw [hitv]
    dsimp only [Attributes.attrs, Attributes.parents]
    unfold config
    rw [if_neg (show ¬((getLocal (Attributes.mk (setLocal at_ k
        { key := k, value := v, final := false, editable := true,
          default := PVal.prim PBase.noneB, validator := none,
          system := false, kind := inferKind k v }) []).attrs k).isNone =
        true) by
      dsimp only [Attributes.attrs]; rw [getLocal_setLocal]; simp)]
    rw [show getA (fuel+1) (Attributes.mk (setLocal at_ k
        { key := k, value := v, final := false, editable := true,
          default := PVal.prim PBase.noneB, validator := none,
          system := false, kind := inferKind k v }) []) k false =
      (Attributes.mk (setLocal at_ k
        { key := k, value := v, final := false, editable := true,
          default := PVal.prim PBase.noneB, validator := none,
          system := false, kind := inferKind k v }) [],
       GetRes.noneR) from rfl]
    try dsimp only
    unfold configBody
    dsimp only [Attributes.attrs]
    rw [getLocal_setLocal]
    try dsimp only
    rw [if_neg (fun hc => hc.2.1 rfl)]
    try dsimp only
    rw [if_neg (fun hc => hc rfl)]
    dsimp only [Option.getD]
    rw [if_neg (fun hc => hc.1 rfl)]
    rw [if_neg (fun hc => hc rfl)]
    rfl
  refine ⟨?_, ?_, ?_, ?_⟩
  · rw [hadd]
  · rw [hadd]
  · rw [hadd]
    dsimp only [Attributes.attrs]
    rw [getLocal_setLocal]
    rfl
  · rw [hadd]
    unfold get
    rw [getA_local_hit fuel (setLocal (setLocal at_ k (c10Item0 k v)) k
      (c10Item1 k v fin ed sys f)) [] k (c10Item1 k v fin ed sys f)
      (getLocal_setLocal _ _ _) hkind]
    rfl

/-- Witness for C10: adding `"v"` with a validator that rejects everything
succeeds anyway, stores `"v"` verbatim, and `get` returns it. -/
theorem C10_witness :
    (add 3 (.mk [] []) "k" (PVal.prim (PBase.strB "v")) false true none false
        false (some c8Rejecter) (PVal.prim PBase.noneB)).2.2 = none ∧
    (add 3 (.mk [] []) "k" (PVal.prim (PBase.strB "v")) false true none false
        false (some c8Rejecter) (PVal.prim PBase.noneB)).2.1 = [] ∧
    (getLocal (add 3 (.mk [] []) "k" (PVal.prim (PBase.strB "v")) false true
        none false false (some c8Rejecter) (PVal.prim PBase.noneB)).1.attrs
        "k").map Item.value = some (PVal.prim (PBase.strB "v")) ∧
    (get 3 (add 3 (.mk [] []) "k" (PVal.prim (PBase.strB "v")) false true none
        false false (some c8Rejecter) (PVal.prim PBase.noneB)).1 "k").2 =
      Except.ok (PVal.prim (PBase.strB "v")) :=
  C10_add_never_validates 2 [] "k" (PVal.prim (PBase.strB "v")) false true
    false false c8Rejecter (fun _ h => nomatch h) (fun _ h => nomatch h)

/-- Counterexample for C10 as stated: a list value is **not** stored as
given — `Attributes.Item(name, value)` infers kind `choices` and replaces
the value by its first element, so after
`add("k", ["a", "b"])` the stored and returned value is `"a"`. -/
theorem C10_counterexample :
    (add 5 (Attributes.mk [] []) "k"
        (PVal.listV [PBase.strB "a", PBase.strB "b"]) false true none false
        false none (PVal.prim PBase.noneB)).2.2 = none ∧
    (getLocal (add 5 (Attributes.mk [] []) "k"
        (PVal.listV [PBase.strB "a", PBase.strB "b"]) false true none false
        false none (PVal.prim PBase.noneB)).1.attrs "k").map Item.value =
      some (PVal.prim (PBase.strB "a")) ∧
    (get 5 (add 5 (Attributes.mk [] []) "k"
        (PVal.listV [PBase.strB "a", PBase.strB "b"]) false true none false
        false none (PVal.prim PBase.noneB)).1 "k").2 =
      Except.ok (PVal.prim (PBase.strB "a")) :=
  ⟨rfl, rfl, rfl⟩

end Tygra
